import Mathlib

/-!
A verification development for the luna chess engine (ChessRules + ChessEngine).

The C++ sources are embedded shallowly:
* machine integers (`uint64_t`, `uint8_t`, `int16_t`, `int`) become `Nat`/`Int`
  with explicit `% 2 ^ 64` (resp. explicit wrapping) where overflow matters;
* enum values are embedded as their integer values, exactly as the C++ code
  casts them: `Color` (White `0`, Black `1`, NB `2`, None `3`), `PieceType`
  (Pawn `0` .. King `5`, NB `6`), `Piece` (WhitePawn `0` .. BlackKing `11`,
  NB `12`, None `13`), `Square` (A1 `0` .. H8 `63`, NB `64`, None `65`),
  `File`/`Rank` (`0`..`7`);
* a `Bitboard` is its `uint64_t` value, a `Nat` below `2 ^ 64`;
* source loops that terminate by a semantic bound (at most 64 set bits in a
  bitboard, at most 64 shifts) are written with an explicit fuel of `64`,
  which the bound makes unreachable;
* the mutable `Position`, table and search state become records threaded
  explicitly.
-/

set_option maxRecDepth 100000

/-! ## Bit-level primitives (bitboard.cpp) -/

/-- All 64 bits set: the value of `~0ULL`. -/
def mask64 : Nat := 2 ^ 64 - 1

/-- `uint64_t` complement `~x` for `x < 2 ^ 64`. -/
def compl64 (x : Nat) : Nat := mask64 ^^^ x

/-- `Bitboard::set_bit`: `bitboard |= (1ULL << bit_index)`. -/
def setBit (bb sq : Nat) : Nat := bb ||| (1 <<< sq)

/-- `Bitboard::clear_bit`: `bitboard &= ~(1ULL << bit_index)`. -/
def clearBit (bb sq : Nat) : Nat := bb &&& compl64 (1 <<< sq)

/-- `Bitboard::is_bit_set`: `(bitboard & (1ULL << bit_index)) != 0`. -/
def isBitSet (bb sq : Nat) : Bool := bb &&& (1 <<< sq) ≠ 0

/-- Loop body of `Bitboard::index_of_mask`: `while ((lsb_mask >> index) != 1) ++index`.
The fuel `64` bounds the loop; for the power-of-two masks the source feeds it,
the loop exits within 64 steps. -/
def indexOfMaskAux : Nat → Nat → Nat → Nat
  | 0, _, i => i
  | fuel + 1, m, i => if m >>> i = 1 then i else indexOfMaskAux fuel m (i + 1)

/-- `Bitboard::index_of_mask`. -/
def indexOfMask (m : Nat) : Nat := indexOfMaskAux 64 m 0

/-- `Bitboard::pop_lsb`: returns `(index, new bitboard)`.  On the empty board it
returns `Square::None = 65` and leaves the board unchanged.  `~bitboard + 1` is
two's-complement negation, written with the explicit `uint64_t` wrap. -/
def popLsb (bb : Nat) : Nat × Nat :=
  if bb = 0 then (65, bb)
  else
    let lsbMask := bb &&& ((compl64 bb + 1) % 2 ^ 64)
    let index := indexOfMask lsbMask
    (index, bb &&& compl64 lsbMask)

/-- `Bitboard::get_lsb_index`. -/
def getLsbIndex (bb : Nat) : Nat :=
  if bb = 0 then 65
  else indexOfMask (bb &&& ((compl64 bb + 1) % 2 ^ 64))

/-- Loop of `Bitboard::count_bits`: `while (bb_copy) { count += bb_copy & 1; bb_copy >>= 1; }`,
with fuel 64 (a `uint64_t` is exhausted after 64 shifts). -/
def countBitsAux : Nat → Nat → Nat
  | 0, _ => 0
  | fuel + 1, bb => if bb = 0 then 0 else (bb &&& 1) + countBitsAux fuel (bb >>> 1)

/-- `Bitboard::count_bits`. -/
def countBits (bb : Nat) : Nat := countBitsAux 64 bb

/-- Loop of `Bitboard::get_msb_index`: start at bit 63 and walk down while the
bit is clear.  Fuel 64 bounds the walk; for a nonzero `uint64_t` the loop stops
at the highest set bit. -/
def msbAux : Nat → Nat → Nat → Nat
  | 0, _, i => i
  | fuel + 1, bb, i => if (bb >>> i) &&& 1 = 0 then msbAux fuel bb (i - 1) else i

/-- `Bitboard::get_msb_index`. -/
def getMsbIndex (bb : Nat) : Nat :=
  if bb = 0 then 65 else msbAux 64 bb 63

/-! ## Squares, files, ranks, pieces (types.h) -/

/-- `file_of`: `square % 8`. -/
def fileOf (sq : Nat) : Nat := sq % 8

/-- `rank_of`: `square / 8`. -/
def rankOf (sq : Nat) : Nat := sq / 8

/-- `make_square`: `rank * 8 + file`. -/
def makeSquare (file rank : Nat) : Nat := rank * 8 + file

/-- `make_piece`: `color * 6 + piece_type`. -/
def makePiece (color pieceType : Nat) : Nat := color * 6 + pieceType

/-- `type_of`: `piece % 6`. -/
def typeOf (piece : Nat) : Nat := piece % 6

/-- `color_of`: `Color::None` (3) for the `None`/`NB` sentinels, else `piece / 6`. -/
def colorOf (piece : Nat) : Nat :=
  if piece = 13 ∨ piece = 12 then 3 else piece / 6

/-- `Position::opposite_color`. -/
def oppositeColor (c : Nat) : Nat := if c = 0 then 1 else 0

/-! ## Ray tables (bitboard.cpp) -/

/-- OR together `1 <<< s` over a list of squares, in order (the `set_bit` loop). -/
def orSquares (l : List Nat) : Nat := l.foldl (fun acc s => setBit acc s) 0

/-- The eight directions, in the order of the source's `all_directions` array:
N, NE, E, SE, S, SW, W, NW. -/
inductive Direction
  | North | NorthEast | East | SouthEast | South | SouthWest | West | NorthWest
deriving DecidableEq

open Direction in
/-- The source's `all_directions` array. -/
def allDirections : List Direction :=
  [North, NorthEast, East, SouthEast, South, SouthWest, West, NorthWest]

/-- `Bitboard::generate_ray`: all squares reachable from `sq` in one direction
on an empty board, excluding `sq` itself, up to the edge.  Each branch
reproduces the loop bounds of the corresponding `switch` case; positive
direction offsets add to the square index, negative ones subtract. -/
def generateRay (sq : Nat) (dir : Direction) : Nat :=
  match dir with
  | .North => orSquares ((List.range' 1 (8 - rankOf sq - 1)).map (fun i => sq + i * 8))
  | .South => orSquares ((List.range' 1 (rankOf sq + 1 - 1)).map (fun i => sq - i * 8))
  | .East => orSquares ((List.range' 1 (8 - fileOf sq - 1)).map (fun i => sq + i))
  | .West => orSquares ((List.range' 1 (fileOf sq + 1 - 1)).map (fun i => sq - i))
  | .NorthEast =>
      orSquares ((List.range' 1 (min (8 - rankOf sq) (8 - fileOf sq) - 1)).map (fun i => sq + i * 9))
  | .NorthWest =>
      orSquares ((List.range' 1 (min (8 - rankOf sq) (fileOf sq + 1) - 1)).map (fun i => sq + i * 7))
  | .SouthEast =>
      orSquares ((List.range' 1 (min (rankOf sq + 1) (8 - fileOf sq) - 1)).map (fun i => sq - i * 7))
  | .SouthWest =>
      orSquares ((List.range' 1 (min (rankOf sq + 1) (fileOf sq + 1) - 1)).map (fun i => sq - i * 9))

/-- `Bitboard::ray_table`, as a function (the source precomputes
`ray_table[dir][sq] = generate_ray(sq, dir)` once at startup). -/
def rayTable (dir : Direction) (sq : Nat) : Nat := generateRay sq dir

/-! ## Non-slider attack tables (bitboard.cpp) -/

/-- `Bitboard::init_knight_attacks`, entry for one square: each of the eight
knight offsets guarded by the same file/rank bounds checks as the source. -/
def knightAttacksTable (sq : Nat) : Nat :=
  let f := fileOf sq
  let r := rankOf sq
  let bb : Nat := 0
  let bb := if r + 2 < 8 ∧ f + 1 < 8 then bb ||| (1 <<< (sq + 17)) else bb  -- NNE
  let bb := if r + 1 < 8 ∧ f + 2 < 8 then bb ||| (1 <<< (sq + 10)) else bb  -- NEE
  let bb := if r ≥ 1 ∧ f + 2 < 8 then bb ||| (1 <<< (sq - 6)) else bb      -- SEE
  let bb := if r ≥ 2 ∧ f + 1 < 8 then bb ||| (1 <<< (sq - 15)) else bb     -- SSE
  let bb := if r ≥ 2 ∧ f ≥ 1 then bb ||| (1 <<< (sq - 17)) else bb         -- SSW
  let bb := if r ≥ 1 ∧ f ≥ 2 then bb ||| (1 <<< (sq - 10)) else bb         -- SWW
  let bb := if r + 1 < 8 ∧ f ≥ 2 then bb ||| (1 <<< (sq + 6)) else bb      -- NWW
  let bb := if r + 2 < 8 ∧ f ≥ 1 then bb ||| (1 <<< (sq + 15)) else bb     -- NNW
  bb

/-- `Bitboard::init_king_attacks`, entry for one square. -/
def kingAttacksTable (sq : Nat) : Nat :=
  let f := fileOf sq
  let r := rankOf sq
  let bb : Nat := 0
  let bb := if r + 1 < 8 then bb ||| (1 <<< (sq + 8)) else bb               -- N
  let bb := if r + 1 < 8 ∧ f + 1 < 8 then bb ||| (1 <<< (sq + 9)) else bb   -- NE
  let bb := if f + 1 < 8 then bb ||| (1 <<< (sq + 1)) else bb               -- E
  let bb := if r ≥ 1 ∧ f + 1 < 8 then bb ||| (1 <<< (sq - 7)) else bb       -- SE
  let bb := if r ≥ 1 then bb ||| (1 <<< (sq - 8)) else bb                   -- S
  let bb := if r ≥ 1 ∧ f ≥ 1 then bb ||| (1 <<< (sq - 9)) else bb           -- SW
  let bb := if f ≥ 1 then bb ||| (1 <<< (sq - 1)) else bb                   -- W
  let bb := if r + 1 < 8 ∧ f ≥ 1 then bb ||| (1 <<< (sq + 7)) else bb       -- NW
  bb

/-- `Bitboard::init_pawn_attacks`, entry for one color and square
(diagonal captures only). -/
def pawnAttacksTable (color sq : Nat) : Nat :=
  let f := fileOf sq
  let r := rankOf sq
  if color = 0 then
    let bb : Nat := 0
    let bb := if r + 1 < 8 ∧ f + 1 < 8 then bb ||| (1 <<< (sq + 9)) else bb -- NE
    let bb := if r + 1 < 8 ∧ f ≥ 1 then bb ||| (1 <<< (sq + 7)) else bb     -- NW
    bb
  else
    let bb : Nat := 0
    let bb := if r ≥ 1 ∧ f + 1 < 8 then bb ||| (1 <<< (sq - 7)) else bb     -- SE
    let bb := if r ≥ 1 ∧ f ≥ 1 then bb ||| (1 <<< (sq - 9)) else bb         -- SW
    bb

/-- `Bitboard::knight_attacks` (lookup with the `NB`/`None` guard). -/
def knightAttacks (sq : Nat) : Nat :=
  if sq = 64 ∨ sq = 65 then 0 else knightAttacksTable sq

/-- `Bitboard::king_attacks`. -/
def kingAttacks (sq : Nat) : Nat :=
  if sq = 64 ∨ sq = 65 then 0 else kingAttacksTable sq

/-- `Bitboard::pawn_attacks`. -/
def pawnAttacks (sq color : Nat) : Nat :=
  if sq = 64 ∨ sq = 65 ∨ color = 2 then 0 else pawnAttacksTable color sq

/-! ## Slider attacks (bitboard.cpp) -/

/-- Loop body of `Bitboard::bishop_attacks` for one direction: add the whole
ray to the accumulated attacks, and if the ray meets occupancy, mask away
everything strictly beyond the nearest blocker — the LSB of the blockers for
the northward diagonals NE and NW, the MSB for SE and SW. -/
def bishopDirStep (sq occupied : Nat) (attacks : Nat) (dir : Direction) : Nat :=
  let ray := rayTable dir sq
  let attacks := attacks ||| ray
  let blockers := ray &&& occupied
  if blockers ≠ 0 then
    let blockerSq :=
      if dir = .NorthEast ∨ dir = .NorthWest then getLsbIndex blockers
      else getMsbIndex blockers
    attacks &&& compl64 (generateRay blockerSq dir)
  else attacks

/-- Loop body of `Bitboard::rook_attacks` for one direction: the nearest
blocker is the LSB of the blockers for N and E, the MSB for S and W. -/
def rookDirStep (sq occupied : Nat) (attacks : Nat) (dir : Direction) : Nat :=
  let ray := rayTable dir sq
  let attacks := attacks ||| ray
  let blockers := ray &&& occupied
  if blockers ≠ 0 then
    let blockerSq :=
      if dir = .North ∨ dir = .East then getLsbIndex blockers
      else getMsbIndex blockers
    attacks &&& compl64 (generateRay blockerSq dir)
  else attacks

/-- The source's `bishop_directions` array: NE, NW, SE, SW. -/
def bishopDirections : List Direction :=
  [.NorthEast, .NorthWest, .SouthEast, .SouthWest]

/-- The source's `rook_directions` array: N, E, S, W. -/
def rookDirections : List Direction :=
  [.North, .East, .South, .West]

/-- `Bitboard::bishop_attacks`. -/
def bishopAttacks (sq occupied : Nat) : Nat :=
  bishopDirections.foldl (bishopDirStep sq occupied) 0

/-- `Bitboard::rook_attacks`. -/
def rookAttacks (sq occupied : Nat) : Nat :=
  rookDirections.foldl (rookDirStep sq occupied) 0

/-- `Bitboard::queen_attacks`: union of bishop and rook attacks. -/
def queenAttacks (sq occupied : Nat) : Nat :=
  bishopAttacks sq occupied ||| rookAttacks sq occupied

/-! ## Zobrist keys (zobrist.cpp)

`ZobristHash::initialize` fills the key tables from `std::mt19937_64` seeded
with `0x1234567890ABCDEF`.  The engine below is the C++ standard
`mersenne_twister_engine` with the `mt19937_64` parameters
(w=64, n=312, m=156, r=31, a=B5026F5AA96619E9, u=29, d=5555555555555555,
s=17, b=71D67FFFEDA60000, t=37, c=FFF7EEE000000000, l=43, f=6364136223846793005),
written over the infinite recurrence sequence `x i`:
`x i = seed-init` for `i < 312` and, for `i ≥ 312`,
`x i = x (i-156) ^^^ (y >>> 1) ^^^ (a if y odd)` with
`y = (x (i-312) & upper) ||| (x (i-311) & lower)`; output `i` is the tempering
of `x (312 + i)`.  The state list is accumulated most-recent-first. -/

def mtLowerMask : Nat := 2 ^ 31 - 1

def mtUpperMask : Nat := mask64 ^^^ mtLowerMask

/-- The output tempering transform of `mt19937_64`. -/
def mtTemper (z : Nat) : Nat :=
  let z1 := z ^^^ ((z >>> 29) &&& 0x5555555555555555)
  let z2 := z1 ^^^ ((z1 <<< 17) &&& 0x71D67FFFEDA60000)
  let z3 := z2 ^^^ ((z2 <<< 37) &&& 0xFFF7EEE000000000)
  z3 ^^^ (z3 >>> 43)

/-- Seed initialization:
`x[i] = (6364136223846793005 * (x[i-1] ^ (x[i-1] >> 62)) + i) mod 2^64`. -/
def mtSeedAux : Nat → List Nat → List Nat
  | 0, acc => acc
  | n + 1, acc =>
    match acc with
    | [] => acc
    | prev :: _ =>
      let i := acc.length
      let v := (6364136223846793005 * (prev ^^^ (prev >>> 62)) + i) % 2 ^ 64
      mtSeedAux n (v :: acc)

/-- The 312 seeded state words `x[311], ..., x[0]` (most recent first). -/
def mtSeedState (seed : Nat) : List Nat :=
  mtSeedAux 311 [seed % 2 ^ 64]

/-- One step of the twist recurrence on the reversed state list: with
`xs = [x (j-1), x (j-2), ...]`, compute `x j`. -/
def mtStepRev (xs : List Nat) : Nat :=
  let xjm312 := xs.getD 311 0
  let xjm311 := xs.getD 310 0
  let xjm156 := xs.getD 155 0
  let y := (xjm312 &&& mtUpperMask) ||| (xjm311 &&& mtLowerMask)
  xjm156 ^^^ (y >>> 1) ^^^ (if y % 2 = 1 then 0xB5026F5AA96619E9 else 0)

def mtExtendAux : Nat → List Nat → List Nat
  | 0, xs => xs
  | n + 1, xs => mtExtendAux n (mtStepRev xs :: xs)

/-- `ZobristHash::initialize` draws 793 numbers
(64·12 piece keys, 16 castling keys, 8 en-passant keys, 1 side key):
this is `x[0 .. 312+792]`, reversed. -/
def mtAllRev : List Nat := mtExtendAux 793 (mtSeedState 0x1234567890ABCDEF)

/-- The `i`-th output of the engine's seeded `std::mt19937_64`. -/
def mtOut (i : Nat) : Nat := mtTemper (mtAllRev.getD (792 - i) 0)

/-- `ZobristHash::piece_keys_[square][piece]` (drawn first, square-major). -/
def pieceKeys (square piece : Nat) : Nat := mtOut (square * 12 + piece)

/-- `ZobristHash::castling_keys_[rights]` (drawn after the piece keys). -/
def castlingKeys (rights : Nat) : Nat := mtOut (768 + rights)

/-- `ZobristHash::en_passant_keys_[file]`. -/
def enPassantKeys (file : Nat) : Nat := mtOut (784 + file)

/-- `ZobristHash::side_to_move_key_` (the last draw). -/
def sideToMoveKey : Nat := mtOut 792

/-! ## Moves (types.h) -/

/-- `MoveType`. -/
inductive MoveType
  | Normal | Capture | Castle | EnPassant | Promotion
deriving DecidableEq

/-- The `Move` struct: the semantic quartet plus the undo-scratch state filled
by `make_move`.  Piece and square fields hold the enum integer values. -/
structure Move where
  fromSq : Nat
  toSq : Nat
  moveType : MoveType
  promotionPiece : Nat
  capturedPiece : Nat
  prevCastlingRights : Nat
  prevEnPassantSquare : Nat
  prevHalfmoveClock : Int
deriving DecidableEq

/-- The `Move()` default constructor. -/
def defaultMove : Move :=
  ⟨65, 65, MoveType.Normal, 13, 13, 0, 65, 0⟩

/-- The value of a `Move` whose bytes were zeroed by `memset`
(as `Search`'s killer-move array is initialized): every enum field is 0. -/
def zeroMove : Move :=
  ⟨0, 0, MoveType.Normal, 0, 0, 0, 0, 0⟩

/-- `Move::operator==`: equality on the semantic quartet only. -/
def moveEqSem (a b : Move) : Bool :=
  a.fromSq = b.fromSq ∧ a.toSq = b.toSq ∧ a.moveType = b.moveType ∧
    a.promotionPiece = b.promotionPiece

/-- Build a `Move` as the `Move(from, to, type, promotion)` constructor does. -/
def mkMove (fromSq toSq : Nat) (ty : MoveType) (promotion : Nat := 13) : Move :=
  ⟨fromSq, toSq, ty, promotion, 13, 0, 65, 0⟩

/-! ## Position (position.h / position.cpp) -/

/-- The `Position` class.  `pieces c pt` is the bitboard array
`pieces_[c][pt]`; the two-element aggregate array `occupied_by_color_`
becomes the fields `occupiedWhite`/`occupiedBlack`; `board sq` is the mailbox
`board_[sq]` (piece integer values, 13 = `Piece::None`); `moveHistory` is the
history vector with its `back` at the list head. -/
structure Position where
  pieces : Nat → Nat → Nat
  occupiedWhite : Nat
  occupiedBlack : Nat
  occupied : Nat
  board : Nat → Nat
  sideToMove : Nat
  castlingRights : Nat
  enPassantSquare : Nat
  halfmoveClock : Int
  fullmoveNumber : Int
  moveHistory : List Move
  hashKey : Nat

/-- Pointwise update of a one-argument table. -/
def updFn (f : Nat → Nat) (i v : Nat) : Nat → Nat :=
  fun j => if j = i then v else f j

/-- Pointwise update of the `pieces_[c][pt]` table. -/
def updPieces (f : Nat → Nat → Nat) (c pt v : Nat) : Nat → Nat → Nat :=
  fun c' pt' => if c' = c ∧ pt' = pt then v else f c' pt'

/-- `Position::piece_on`. -/
def pieceOn (pos : Position) (sq : Nat) : Nat := pos.board sq

/-- `Position::occupied_by_color` (the 2-element array, indexed 0/1). -/
def occupiedByColor (pos : Position) (c : Nat) : Nat :=
  if c = 0 then pos.occupiedWhite else pos.occupiedBlack

/-- Union of one color's six piece bitboards, in piece-type order
(the inner loop of `Position::update_bitboards`). -/
def colorUnion (pieces : Nat → Nat → Nat) (c : Nat) : Nat :=
  (List.range 6).foldl (fun acc pt => acc ||| pieces c pt) 0

/-- `Position::update_bitboards`: recompute the aggregates from the piece
bitboards. -/
def updateBitboards (pos : Position) : Position :=
  { pos with
    occupiedWhite := colorUnion pos.pieces 0
    occupiedBlack := colorUnion pos.pieces 1
    occupied := colorUnion pos.pieces 0 ||| colorUnion pos.pieces 1 }

/-- `Position::king_square`: LSB of the king bitboard. -/
def kingSquare (pos : Position) (color : Nat) : Nat :=
  getLsbIndex (pos.pieces color 5)

/-! ## Zobrist hashing of a position (zobrist.cpp) -/

/-- `ZobristHash::hash_position`: XOR the key of every piece on the board, the
castling-rights key, the en-passant file key if an en-passant square is set,
and the side key if Black is to move. -/
def hashPosition (pos : Position) : Nat :=
  let h := (List.range 64).foldl
    (fun h sq =>
      let piece := pieceOn pos sq
      if piece ≠ 13 then h ^^^ pieceKeys sq piece else h) 0
  let h := h ^^^ castlingKeys pos.castlingRights
  let h := if pos.enPassantSquare ≠ 65 then h ^^^ enPassantKeys (fileOf pos.enPassantSquare) else h
  if pos.sideToMove = 1 then h ^^^ sideToMoveKey else h

/-- `ZobristHash::update_hash_make_move`: the incremental hash update, applied
to the pre-move position `pos` and the move `m` (whose `capturedPiece` scratch
field is whatever the caller left there). -/
def updateHashMakeMove (currentHash : Nat) (pos : Position) (m : Move) : Nat :=
  let h := currentHash ^^^ sideToMoveKey
  let movingPiece := pieceOn pos m.fromSq
  let h := h ^^^ pieceKeys m.fromSq movingPiece
  let h :=
    match m.moveType with
    | .Normal => h ^^^ pieceKeys m.toSq movingPiece
    | .Capture =>
        let h := if m.capturedPiece ≠ 13 then h ^^^ pieceKeys m.toSq m.capturedPiece else h
        h ^^^ pieceKeys m.toSq movingPiece
    | .Castle =>
        let h := h ^^^ pieceKeys m.toSq movingPiece
        if m.toSq = 6 then h ^^^ pieceKeys 7 3 ^^^ pieceKeys 5 3
        else if m.toSq = 2 then h ^^^ pieceKeys 0 3 ^^^ pieceKeys 3 3
        else if m.toSq = 62 then h ^^^ pieceKeys 63 9 ^^^ pieceKeys 61 9
        else if m.toSq = 58 then h ^^^ pieceKeys 56 9 ^^^ pieceKeys 59 9
        else h
    | .EnPassant =>
        let h := h ^^^ pieceKeys m.toSq movingPiece
        let capturedSquare := if pos.sideToMove = 0 then m.toSq - 8 else m.toSq + 8
        let capturedPawn := if pos.sideToMove = 0 then 6 else 0
        h ^^^ pieceKeys capturedSquare capturedPawn
    | .Promotion =>
        let h := h ^^^ pieceKeys m.toSq m.promotionPiece
        if m.capturedPiece ≠ 13 then h ^^^ pieceKeys m.toSq m.capturedPiece else h
  let h := h ^^^ castlingKeys pos.castlingRights
  if pos.enPassantSquare ≠ 65 then h ^^^ enPassantKeys (fileOf pos.enPassantSquare) else h

/-! ## Attack queries (movegen.cpp) -/

/-- `MoveGenerator::is_square_attacked`: pawn attacks by mailbox lookup at the
two origin squares, then knight/king table hits, then slider hits under the
current occupancy. -/
def isSquareAttacked (pos : Position) (square byColor : Nat) : Bool :=
  let pawnHit : Bool :=
    if byColor = 0 then
      decide (rankOf square > 0) &&
        ((decide (fileOf square > 0) && decide (pieceOn pos (square - 9) = 0)) ||
         (decide (fileOf square < 7) && decide (pieceOn pos (square - 7) = 0)))
    else
      decide (rankOf square < 7) &&
        ((decide (fileOf square > 0) && decide (pieceOn pos (square + 7) = 6)) ||
         (decide (fileOf square < 7) && decide (pieceOn pos (square + 9) = 6)))
  pawnHit ||
    decide (countBits (knightAttacks square &&& pos.pieces byColor 1) > 0) ||
    decide (countBits (kingAttacks square &&& pos.pieces byColor 5) > 0) ||
    decide (countBits (bishopAttacks square pos.occupied &&&
      (pos.pieces byColor 2 ||| pos.pieces byColor 4)) > 0) ||
    decide (countBits (rookAttacks square pos.occupied &&&
      (pos.pieces byColor 3 ||| pos.pieces byColor 4)) > 0)

/-- `Position::is_in_check`. -/
def isInCheck (pos : Position) : Bool :=
  isSquareAttacked pos (kingSquare pos pos.sideToMove) (oppositeColor pos.sideToMove)

/-! ## Making and unmaking moves (position.cpp) -/

/-- `Position::make_move`.  The `prev_*` scratch fields are captured before any
mutation; the aggregate bitboards are recomputed and the hash key is rehashed
from scratch at the end, exactly as the source does. -/
def makeMove (pos : Position) (m : Move) : Position :=
  let mws : Move :=
    { m with prevCastlingRights := pos.castlingRights
             prevEnPassantSquare := pos.enPassantSquare
             prevHalfmoveClock := pos.halfmoveClock }
  let movingPiece := pieceOn pos m.fromSq
  let capturedPiece := pieceOn pos m.toSq
  let mws := { mws with capturedPiece := capturedPiece }
  let color := colorOf movingPiece
  let type := typeOf movingPiece
  -- remove the piece from the source square
  let pieces1 := updPieces pos.pieces color type (clearBit (pos.pieces color type) m.fromSq)
  let board1 := updFn pos.board m.fromSq 13
  -- the switch on the move type
  let (pieces2, board2, halfmove2, mws2) :=
    match m.moveType with
    | .Normal | .Capture =>
        let (pieces1a, halfmoveA) :=
          if capturedPiece ≠ 13 then
            let capColor := colorOf capturedPiece
            let capType := typeOf capturedPiece
            (updPieces pieces1 capColor capType
               (clearBit (pieces1 capColor capType) m.toSq), (0 : Int))
          else if type ≠ 0 then (pieces1, pos.halfmoveClock + 1)
          else (pieces1, 0)
        let pieces1b := updPieces pieces1a color type (setBit (pieces1a color type) m.toSq)
        let board1b := updFn board1 m.toSq movingPiece
        (pieces1b, board1b, halfmoveA, mws)
    | .Castle =>
        let pieces1a := updPieces pieces1 color 5 (setBit (pieces1 color 5) m.toSq)
        let board1a := updFn board1 m.toSq movingPiece
        let (rookFrom, rookTo) :=
          if m.toSq = 6 then (7, 5)
          else if m.toSq = 2 then (0, 3)
          else if m.toSq = 62 then (63, 61)
          else (56, 59)
        let rook := board1a rookFrom
        let pieces1b := updPieces pieces1a color 3 (clearBit (pieces1a color 3) rookFrom)
        let pieces1c := updPieces pieces1b color 3 (setBit (pieces1b color 3) rookTo)
        let board1b := updFn board1a rookFrom 13
        let board1c := updFn board1b rookTo rook
        (pieces1c, board1c, pos.halfmoveClock + 1, mws)
    | .EnPassant =>
        let pieces1a := updPieces pieces1 color type (setBit (pieces1 color type) m.toSq)
        let board1a := updFn board1 m.toSq movingPiece
        let capturedPawnSq := if color = 0 then m.toSq - 8 else m.toSq + 8
        let enemyColor := oppositeColor color
        let mwsA := { mws with capturedPiece := makePiece enemyColor 0 }
        let pieces1b := updPieces pieces1a enemyColor 0 (clearBit (pieces1a enemyColor 0) capturedPawnSq)
        let board1b := updFn board1a capturedPawnSq 13
        (pieces1b, board1b, (0 : Int), mwsA)
    | .Promotion =>
        let pieces1a :=
          if capturedPiece ≠ 13 then
            let capColor := colorOf capturedPiece
            let capType := typeOf capturedPiece
            updPieces pieces1 capColor capType (clearBit (pieces1 capColor capType) m.toSq)
          else pieces1
        let promoType := typeOf m.promotionPiece
        let pieces1b := updPieces pieces1a color promoType (setBit (pieces1a color promoType) m.toSq)
        let board1b := updFn board1 m.toSq m.promotionPiece
        (pieces1b, board1b, (0 : Int), mws)
  -- castling-rights maintenance
  let cr := pos.castlingRights
  let cr :=
    if type = 5 then
      if color = 0 then cr &&& compl64 1 &&& compl64 2
      else cr &&& compl64 4 &&& compl64 8
    else cr
  let cr := if m.fromSq = 0 then cr &&& compl64 2 else cr
  let cr := if m.fromSq = 7 then cr &&& compl64 1 else cr
  let cr := if m.fromSq = 56 then cr &&& compl64 8 else cr
  let cr := if m.fromSq = 63 then cr &&& compl64 4 else cr
  let cr := if m.toSq = 0 then cr &&& compl64 2 else cr
  let cr := if m.toSq = 7 then cr &&& compl64 1 else cr
  let cr := if m.toSq = 56 then cr &&& compl64 8 else cr
  let cr := if m.toSq = 63 then cr &&& compl64 4 else cr
  -- en-passant maintenance
  let ep : Nat :=
    if type = 0 ∧ ((rankOf m.toSq : Int) - (rankOf m.fromSq : Int)).natAbs = 2 then
      if color = 0 then m.toSq - 8 else m.toSq + 8
    else 65
  let stm := oppositeColor pos.sideToMove
  let pos1 : Position :=
    { pos with
      pieces := pieces2
      board := board2
      halfmoveClock := halfmove2
      castlingRights := cr
      enPassantSquare := ep
      sideToMove := stm
      fullmoveNumber := if stm = 0 then pos.fullmoveNumber + 1 else pos.fullmoveNumber
      moveHistory := mws2 :: pos.moveHistory }
  let pos2 := updateBitboards pos1
  { pos2 with hashKey := hashPosition pos2 }

/-- `Position::undo_move`.  Pops the most recent history record and reverses
every mutation using the recorded previous values; on an empty history the
position is returned unchanged (the source only prints a warning). -/
def undoMove (pos : Position) : Position :=
  match pos.moveHistory with
  | [] => pos
  | m :: rest =>
    let stm := oppositeColor pos.sideToMove
    let fullmove := if stm = 1 then pos.fullmoveNumber - 1 else pos.fullmoveNumber
    let movingPiece :=
      if m.moveType = .Promotion then makePiece stm 0 else pieceOn pos m.toSq
    let color := colorOf movingPiece
    let type := typeOf movingPiece
    let (pieces2, board2) :=
      match m.moveType with
      | .Normal | .Capture =>
          let pieces1 := updPieces pos.pieces color type (clearBit (pos.pieces color type) m.toSq)
          let board1 := updFn pos.board m.toSq 13
          let pieces1a := updPieces pieces1 color type (setBit (pieces1 color type) m.fromSq)
          let board1a := updFn board1 m.fromSq movingPiece
          if m.capturedPiece ≠ 13 then
            let capColor := colorOf m.capturedPiece
            let capType := typeOf m.capturedPiece
            (updPieces pieces1a capColor capType (setBit (pieces1a capColor capType) m.toSq),
             updFn board1a m.toSq m.capturedPiece)
          else (pieces1a, board1a)
      | .Castle =>
          let pieces1 := updPieces pos.pieces color 5 (clearBit (pos.pieces color 5) m.toSq)
          let pieces1a := updPieces pieces1 color 5 (setBit (pieces1 color 5) m.fromSq)
          let board1 := updFn pos.board m.toSq 13
          let board1a := updFn board1 m.fromSq movingPiece
          let (rookFrom, rookTo) :=
            if m.toSq = 6 then (5, 7)
            else if m.toSq = 2 then (3, 0)
            else if m.toSq = 62 then (61, 63)
            else (59, 56)
          let rook := board1a rookFrom
          let pieces1b := updPieces pieces1a color 3 (clearBit (pieces1a color 3) rookFrom)
          let pieces1c := updPieces pieces1b color 3 (setBit (pieces1b color 3) rookTo)
          let board1b := updFn board1a rookFrom 13
          let board1c := updFn board1b rookTo rook
          (pieces1c, board1c)
      | .EnPassant =>
          let pieces1 := updPieces pos.pieces color 0 (clearBit (pos.pieces color 0) m.toSq)
          let board1 := updFn pos.board m.toSq 13
          let pieces1a := updPieces pieces1 color 0 (setBit (pieces1 color 0) m.fromSq)
          let board1a := updFn board1 m.fromSq movingPiece
          let capturedPawnSq := if color = 0 then m.toSq - 8 else m.toSq + 8
          let enemyColor := oppositeColor color
          let pieces1b := updPieces pieces1a enemyColor 0 (setBit (pieces1a enemyColor 0) capturedPawnSq)
          let board1b := updFn board1a capturedPawnSq m.capturedPiece
          (pieces1b, board1b)
      | .Promotion =>
          let promoType := typeOf m.promotionPiece
          let pieces1 := updPieces pos.pieces color promoType (clearBit (pos.pieces color promoType) m.toSq)
          let board1 := updFn pos.board m.toSq 13
          let pieces1a := updPieces pieces1 color 0 (setBit (pieces1 color 0) m.fromSq)
          let board1a := updFn board1 m.fromSq (makePiece color 0)
          if m.capturedPiece ≠ 13 then
            let capColor := colorOf m.capturedPiece
            let capType := typeOf m.capturedPiece
            (updPieces pieces1a capColor capType (setBit (pieces1a capColor capType) m.toSq),
             updFn board1a m.toSq m.capturedPiece)
          else (pieces1a, board1a)
    let pos1 : Position :=
      { pos with
        sideToMove := stm
        fullmoveNumber := fullmove
        castlingRights := m.prevCastlingRights
        enPassantSquare := m.prevEnPassantSquare
        halfmoveClock := m.prevHalfmoveClock
        pieces := pieces2
        board := board2
        moveHistory := rest }
    let pos2 := updateBitboards pos1
    { pos2 with hashKey := hashPosition pos2 }

/-! ## FEN parsing (position.cpp, `load_fen` / helpers from types.h) -/

/-- Whitespace for `istream` token extraction. -/
def isSpaceChar (c : Char) : Bool := c = ' ' ∨ c = '\t' ∨ c = '\n' ∨ c = '\r'

/-- `ss >> std::string`: skip whitespace, then read a nonempty token.
Fails (returns `none`) at end of input. -/
def readStr (cs : List Char) : Option (List Char × List Char) :=
  let cs := cs.dropWhile isSpaceChar
  match cs with
  | [] => none
  | _ => some (cs.takeWhile (fun c => ¬ isSpaceChar c), cs.dropWhile (fun c => ¬ isSpaceChar c))

def isDigitChar (c : Char) : Bool := '0' ≤ c ∧ c ≤ '9'

def digitsToNat (ds : List Char) : Nat := ds.foldl (fun a c => a * 10 + (c.toNat - 48)) 0

/-- `ss >> int`: skip whitespace, optional sign, then a nonempty digit run.
On failure the C++11 stream stores `0` in the target; the caller handles that. -/
def readInt (cs : List Char) : Option (Int × List Char) :=
  let cs := cs.dropWhile isSpaceChar
  let (sign, cs1) :=
    match cs with
    | '-' :: r => ((-1 : Int), r)
    | '+' :: r => ((1 : Int), r)
    | _ => ((1 : Int), cs)
  let ds := cs1.takeWhile isDigitChar
  if ds = [] then none
  else some (sign * digitsToNat ds, cs1.dropWhile isDigitChar)

/-- `string_to_square`: too-short strings give `Square::NB` (64), out-of-range
characters give `Square::None` (65). -/
def stringToSquare (s : List Char) : Nat :=
  if s.length < 2 then 64
  else
    let file := (s.getD 0 ' ').toLower
    let rank := s.getD 1 ' '
    if file < 'a' ∨ file > 'h' ∨ rank < '1' ∨ rank > '8' then 65
    else (rank.toNat - 49) * 8 + (file.toNat - 97)

/-- The `switch (std::tolower(ch))` of the board parser. -/
def pieceTypeOfChar (c : Char) : Option Nat :=
  if c = 'p' then some 0
  else if c = 'n' then some 1
  else if c = 'b' then some 2
  else if c = 'r' then some 3
  else if c = 'q' then some 4
  else if c = 'k' then some 5
  else none

/-- The board-placement parsing loop of `load_fen`.  `rank`/`file` are C++
`int`s; `make_square` composes them as `rank * 8 + file` (out-of-band values
would index out of bounds in C++ — undefined behavior no theorem relies on —
and are clamped by `toNat` here).  On an unknown piece character the loop
returns `false` together with the partially mutated position. -/
def parseBoardAux : List Char → Int → Int → Position → Bool × Position
  | [], _, _, p => (true, p)
  | c :: rest, rank, file, p =>
    if c = '/' then parseBoardAux rest (rank - 1) 0 p
    else if '1' ≤ c ∧ c ≤ '8' then parseBoardAux rest rank (file + ((c.toNat : Int) - 48)) p
    else
      let color : Nat := if c.isUpper then 0 else 1
      match pieceTypeOfChar c.toLower with
      | none => (false, p)
      | some ty =>
        let sq := (rank * 8 + file).toNat
        let piece := makePiece color ty
        let p := { p with
          board := updFn p.board sq piece
          pieces := updPieces p.pieces color ty (setBit (p.pieces color ty) sq) }
        parseBoardAux rest rank (file + 1) p

/-- The `K`/`Q`/`k`/`q` castling-string loop of `load_fen` (other characters
are silently ignored — the switch has no default). -/
def parseCastling (s : List Char) : Nat :=
  s.foldl (fun cr c =>
    if c = 'K' then cr ||| 1
    else if c = 'Q' then cr ||| 2
    else if c = 'k' then cr ||| 4
    else if c = 'q' then cr ||| 8
    else cr) 0

/-- `Position::load_fen`.  Returns the `bool` result together with the
(possibly mutated) position.  The six stream extractions run first — reading
the clocks directly into the member variables, with a failed numeric
extraction storing 0 (C++11) — then the position is cleared and the board
string is parsed; a bad piece character aborts mid-mutation. -/
def loadFen (pos : Position) (fen : String) : Bool × Position :=
  match readStr fen.data with
  | none => (false, pos)
  | some (boardPart, cs1) =>
  match readStr cs1 with
  | none => (false, pos)
  | some (activeColor, cs2) =>
  match readStr cs2 with
  | none => (false, pos)
  | some (castling, cs3) =>
  match readStr cs3 with
  | none => (false, pos)
  | some (epSquare, cs4) =>
  match readInt cs4 with
  | none => (false, { pos with halfmoveClock := 0 })
  | some (hm, cs5) =>
  match readInt cs5 with
  | none => (false, { pos with halfmoveClock := hm, fullmoveNumber := 0 })
  | some (fm, _) =>
    let clearedPieces :=
      (List.range 2).foldl (fun ps c =>
        (List.range 6).foldl (fun ps pt => updPieces ps c pt 0) ps) pos.pieces
    let clearedBoard :=
      (List.range 64).foldl (fun b sq => updFn b sq 13) pos.board
    let p : Position :=
      { pos with
        halfmoveClock := hm
        fullmoveNumber := fm
        pieces := clearedPieces
        board := clearedBoard
        moveHistory := [] }
    match parseBoardAux boardPart 7 0 p with
    | (false, p1) => (false, p1)
    | (true, p1) =>
      let p2 : Position :=
        { p1 with
          sideToMove := if activeColor = ['w'] then 0 else 1
          castlingRights := parseCastling castling
          enPassantSquare := if epSquare = ['-'] then 65 else stringToSquare epSquare }
      let p3 := updateBitboards p2
      (true, { p3 with hashKey := hashPosition p3 })

/-- The `Position()` default constructor's zero state, before it loads the
starting FEN (members the constructor leaves for `load_fen` are given their
zero values; `load_fen` overwrites them on the success path). -/
def emptyPosition : Position :=
  { pieces := fun _ _ => 0
    occupiedWhite := 0
    occupiedBlack := 0
    occupied := 0
    board := fun _ => 13
    sideToMove := 0
    castlingRights := 0
    enPassantSquare := 65
    halfmoveClock := 0
    fullmoveNumber := 1
    moveHistory := []
    hashKey := 0 }

def startFen : String := "rnbqkbnr/pppppppp/8/8/8/8/PPPPPPPP/RNBQKBNR w KQkq - 0 1"

/-- The starting position built by the `Position()` constructor. -/
def startPos : Position := (loadFen emptyPosition startFen).2

/-! ## Move generation (movegen.cpp) -/

/-- The `while (bb.count_bits() > 0) { sq = bb.pop_lsb(); ... }` iteration
pattern: the popped squares in order.  Fuel 64 covers the at most 64 set bits
of a `uint64_t`. -/
def squaresOfAux : Nat → Nat → List Nat
  | 0, _ => []
  | fuel + 1, bb =>
    if countBits bb > 0 then
      let p := popLsb bb
      p.1 :: squaresOfAux fuel p.2
    else []

def squaresOf (bb : Nat) : List Nat := squaresOfAux 64 bb

/-- `MoveGenerator::generate_knight_moves`. -/
def generateKnightMoves (pos : Position) (color : Nat) : List Move :=
  let ownPieces := occupiedByColor pos color
  (squaresOf (pos.pieces color 1)).flatMap (fun fromSq =>
    (squaresOf (knightAttacks fromSq &&& compl64 ownPieces)).map (fun toSq =>
      mkMove fromSq toSq (if pieceOn pos toSq ≠ 13 then .Capture else .Normal)))

/-- `MoveGenerator::generate_bishop_moves`. -/
def generateBishopMoves (pos : Position) (color : Nat) : List Move :=
  let ownPieces := occupiedByColor pos color
  (squaresOf (pos.pieces color 2)).flatMap (fun fromSq =>
    (squaresOf (bishopAttacks fromSq pos.occupied &&& compl64 ownPieces)).map (fun toSq =>
      mkMove fromSq toSq (if pieceOn pos toSq ≠ 13 then .Capture else .Normal)))

/-- `MoveGenerator::generate_rook_moves`. -/
def generateRookMoves (pos : Position) (color : Nat) : List Move :=
  let ownPieces := occupiedByColor pos color
  (squaresOf (pos.pieces color 3)).flatMap (fun fromSq =>
    (squaresOf (rookAttacks fromSq pos.occupied &&& compl64 ownPieces)).map (fun toSq =>
      mkMove fromSq toSq (if pieceOn pos toSq ≠ 13 then .Capture else .Normal)))

/-- `MoveGenerator::generate_queen_moves`. -/
def generateQueenMoves (pos : Position) (color : Nat) : List Move :=
  let ownPieces := occupiedByColor pos color
  (squaresOf (pos.pieces color 4)).flatMap (fun fromSq =>
    (squaresOf (queenAttacks fromSq pos.occupied &&& compl64 ownPieces)).map (fun toSq =>
      mkMove fromSq toSq (if pieceOn pos toSq ≠ 13 then .Capture else .Normal)))

/-- `MoveGenerator::generate_king_moves` (no castling; at most one king is
processed — the source uses `if`, not a loop). -/
def generateKingMoves (pos : Position) (color : Nat) : List Move :=
  let ownPieces := occupiedByColor pos color
  match squaresOf (pos.pieces color 5) with
  | [] => []
  | fromSq :: _ =>
    (squaresOf (kingAttacks fromSq &&& compl64 ownPieces)).map (fun toSq =>
      mkMove fromSq toSq (if pieceOn pos toSq ≠ 13 then .Capture else .Normal))

/-- `MoveGenerator::generate_pawn_moves`. -/
def generatePawnMoves (pos : Position) (color : Nat) : List Move :=
  let enemyPieces := occupiedByColor pos (if color = 0 then 1 else 0)
  let pushOffset : Int := if color = 0 then 8 else -8
  let startRank : Nat := if color = 0 then 1 else 6
  let promoRank : Nat := if color = 0 then 7 else 0
  (squaresOf (pos.pieces color 0)).flatMap (fun fromSq =>
    let fromRank := rankOf fromSq
    let toI : Int := fromSq + pushOffset
    let pushMoves :=
      if 0 ≤ toI ∧ toI ≤ 63 ∧ ¬ isBitSet pos.occupied toI.toNat then
        let toSq := toI.toNat
        if rankOf toSq = promoRank then
          [mkMove fromSq toSq .Promotion (makePiece color 4),
           mkMove fromSq toSq .Promotion (makePiece color 3),
           mkMove fromSq toSq .Promotion (makePiece color 2),
           mkMove fromSq toSq .Promotion (makePiece color 1)]
        else
          mkMove fromSq toSq .Normal ::
            (if fromRank = startRank then
              let doubleTo := (fromSq + 2 * pushOffset).toNat
              if ¬ isBitSet pos.occupied doubleTo then [mkMove fromSq doubleTo .Normal]
              else []
            else [])
      else []
    let capMoves :=
      (squaresOf (pawnAttacks fromSq color &&& enemyPieces)).flatMap (fun capSq =>
        if rankOf capSq = promoRank then
          [mkMove fromSq capSq .Promotion (makePiece color 4),
           mkMove fromSq capSq .Promotion (makePiece color 3),
           mkMove fromSq capSq .Promotion (makePiece color 2),
           mkMove fromSq capSq .Promotion (makePiece color 1)]
        else [mkMove fromSq capSq .Capture])
    let epMoves :=
      if pos.enPassantSquare ≠ 65 then
        if isBitSet (pawnAttacks fromSq color) pos.enPassantSquare then
          [mkMove fromSq pos.enPassantSquare .EnPassant]
        else []
      else []
    pushMoves ++ capMoves ++ epMoves)

/-- `MoveGenerator::generate_castling_moves`. -/
def generateCastlingMoves (pos : Position) (color : Nat) : List Move :=
  if isInCheck pos then []
  else
    let kingSq := kingSquare pos color
    if (color = 0 ∧ kingSq ≠ 4) ∨ (color = 1 ∧ kingSq ≠ 60) then []
    else
      let cr := pos.castlingRights
      if color = 0 then
        (if cr &&& 1 ≠ 0 ∧
            ¬ isBitSet pos.occupied 5 ∧ ¬ isBitSet pos.occupied 6 ∧
            ¬ isSquareAttacked pos 5 1 ∧ ¬ isSquareAttacked pos 6 1 ∧
            pieceOn pos 7 = 3 then
          [mkMove 4 6 .Castle]
        else []) ++
        (if cr &&& 2 ≠ 0 ∧
            ¬ isBitSet pos.occupied 3 ∧ ¬ isBitSet pos.occupied 2 ∧
              ¬ isBitSet pos.occupied 1 ∧
            ¬ isSquareAttacked pos 3 1 ∧ ¬ isSquareAttacked pos 2 1 ∧
            pieceOn pos 0 = 3 then
          [mkMove 4 2 .Castle]
        else [])
      else
        (if cr &&& 4 ≠ 0 ∧
            ¬ isBitSet pos.occupied 61 ∧ ¬ isBitSet pos.occupied 62 ∧
            ¬ isSquareAttacked pos 61 0 ∧ ¬ isSquareAttacked pos 62 0 ∧
            pieceOn pos 63 = 9 then
          [mkMove 60 62 .Castle]
        else []) ++
        (if cr &&& 8 ≠ 0 ∧
            ¬ isBitSet pos.occupied 59 ∧ ¬ isBitSet pos.occupied 58 ∧
              ¬ isBitSet pos.occupied 57 ∧
            ¬ isSquareAttacked pos 59 0 ∧ ¬ isSquareAttacked pos 58 0 ∧
            pieceOn pos 56 = 9 then
          [mkMove 60 58 .Castle]
        else [])

/-- `MoveGenerator::generate_all_moves`: pawns, knights, bishops, rooks,
queens, king, castling, in that order. -/
def generateAllMoves (pos : Position) (color : Nat) : List Move :=
  generatePawnMoves pos color ++ generateKnightMoves pos color ++
    generateBishopMoves pos color ++ generateRookMoves pos color ++
    generateQueenMoves pos color ++ generateKingMoves pos color ++
    generateCastlingMoves pos color

/-- `MoveGenerator::generate_legal_moves`: the two-kings fiat stalemate, then
pseudo-legal generation filtered by making each move on a copy and testing
whether the mover's king is attacked in the resulting position. -/
def generateLegalMoves (pos : Position) : List Move :=
  let onlyKings := (List.range 2).all (fun c =>
    (List.range 6).all (fun pt => pt = 5 || countBits (pos.pieces c pt) = 0))
  if onlyKings then []
  else
    let pseudoLegal := generateAllMoves pos pos.sideToMove
    pseudoLegal.filter (fun m =>
      let testPos := makeMove pos m
      let enemyColor := if pos.sideToMove = 0 then 1 else 0
      let ourKing := kingSquare testPos pos.sideToMove
      ¬ isSquareAttacked testPos ourKing enemyColor)

/-! ## Engine constants (constants.h) -/

def MAX_PLY : Nat := 64
def INFINITY_SCORE : Int := 1000000
def MATE_SCORE : Int := 100000
def CHECK_FREQUENCY : Nat := 2048
def TT_MOVE_SCORE : Int := 15000
def WINNING_CAPTURE_SCORE : Int := 10000
def PROMOTION_SCORE : Int := 9500
def KILLER_MOVE_1_SCORE : Int := 8000
def KILLER_MOVE_2_SCORE : Int := 7000

/-- `MVV_LVA_OFFSET[attacker][victim]`. -/
def MVV_LVA_OFFSET : List (List Int) :=
  [[105, 205, 305, 405, 505, 605],
   [104, 204, 304, 404, 504, 604],
   [103, 203, 303, 403, 503, 603],
   [102, 202, 302, 402, 502, 602],
   [101, 201, 301, 401, 501, 601],
   [100, 200, 300, 400, 500, 600]]

/-- `Search::get_piece_value`. -/
def getPieceValue (pt : Nat) : Int :=
  if pt = 0 then 100
  else if pt = 1 then 320
  else if pt = 2 then 330
  else if pt = 3 then 500
  else if pt = 4 then 900
  else if pt = 5 then 20000
  else 0

/-! ## Transposition table (transposition_table.h / transposition_table.cpp) -/

/-- `static_cast<int16_t>` with two's-complement wrapping. -/
def toInt16 (n : Int) : Int := (n + 2 ^ 15) % 2 ^ 16 - 2 ^ 15

/-- `TTEntry`.  `score` and `depth` hold `int16_t` values (the casts are
applied on store); `boundType` and `age` hold `uint8_t` values. -/
structure TTEntry where
  key : Nat
  score : Int
  depth : Int
  boundType : Nat
  age : Nat
  bestMove : Move
deriving DecidableEq

/-- The `TTEntry()` default constructor (`depth = -1` marks an empty slot). -/
def defaultTTEntry : TTEntry := ⟨0, 0, -1, 0, 0, defaultMove⟩

/-- `TTEntry::is_valid`. -/
def ttEntryIsValid (e : TTEntry) : Bool := decide (0 ≤ e.depth)

/-- The table.  `TranspositionTable::resize` derives the entry count from a
megabyte budget and `sizeof(TTEntry)` — a memory-layout quantity — so the
model takes the entry count `tableSize` directly; `get_index` is
`key % table_size_`.  `BoundType`: NONE 0, EXACT 1, LOWER_BOUND 2,
UPPER_BOUND 3. -/
structure TranspositionTable where
  tableSize : Nat
  entries : Nat → TTEntry
  currentAge : Nat

/-- A freshly cleared table of a given size (`TranspositionTable::clear`). -/
def emptyTT (size : Nat) : TranspositionTable :=
  ⟨size, fun _ => defaultTTEntry, 0⟩

/-- `TranspositionTable::should_replace`. -/
def shouldReplace (existing : TTEntry) (newDepth : Int) (newAge : Nat) : Bool :=
  if ¬ ttEntryIsValid existing then true
  else if newAge ≠ existing.age then true
  else decide (newDepth ≥ existing.depth)

/-- `TranspositionTable::store`: mate scores beyond `MATE_SCORE - MAX_PLY` are
offset by `ply` before the `int16_t` narrowing; the replacement policy guards
the write. -/
def ttStore (tt : TranspositionTable) (key : Nat) (score : Int) (depth : Int)
    (bound : Nat) (bestMove : Move) (ply : Nat) : TranspositionTable :=
  let index := key % tt.tableSize
  let entry := tt.entries index
  let storeScore :=
    if score > MATE_SCORE - (MAX_PLY : Int) then score + ply
    else if score < -MATE_SCORE + (MAX_PLY : Int) then score - ply
    else score
  if ¬ ttEntryIsValid entry || shouldReplace entry depth tt.currentAge then
    { tt with entries := fun i =>
        if i = index then
          ⟨key, toInt16 storeScore, toInt16 depth, bound, tt.currentAge, bestMove⟩
        else tt.entries i }
  else tt

/-- `TranspositionTable::probe`: `none` models the `false` return; on a hit the
mate-window offset is undone for the querent's ply. -/
def ttProbe (tt : TranspositionTable) (key : Nat) (ply : Nat) :
    Option (Int × Int × Nat × Move) :=
  let entry := tt.entries (key % tt.tableSize)
  if ¬ ttEntryIsValid entry || entry.key ≠ key then none
  else
    let score := entry.score
    let score :=
      if score > MATE_SCORE - (MAX_PLY : Int) then score - ply
      else if score < -MATE_SCORE + (MAX_PLY : Int) then score + ply
      else score
    some (score, entry.depth, entry.boundType, entry.bestMove)

/-- `TranspositionTable::new_search` (`current_age_` is a `uint8_t`). -/
def ttNewSearch (tt : TranspositionTable) : TranspositionTable :=
  { tt with currentAge := (tt.currentAge + 1) % 256 }

/-! ## Search (search.h / search.cpp)

The `Search` object's mutable members become the `SearchState` record.  Two of
its collaborators are injected, as in the source:
* `evalF` stands for the `Evaluator*` the `Search` constructor receives
  (claims below never depend on its value);
* `tmStop` abstracts `time_manager_ && time_manager_->should_stop()`, which
  samples a monotonic wall clock: the model treats it as a Boolean oracle of
  the node count at the poll (a null time manager is the constantly-false
  oracle). -/

structure SearchState where
  stopSearch : Bool
  nodesSinceTimeCheck : Nat
  nodesSearched : Nat
  killerMoves : Nat → Nat → Move
  tt : TranspositionTable
  ttHits : Nat
  ttCutoffs : Nat

/-- The search state the `Search` constructor builds: stop flag clear,
counters zero, killer array `memset` to zero bytes, a cleared table. -/
def initialSearchState (ttSize : Nat) : SearchState :=
  ⟨false, 0, 0, fun _ _ => zeroMove, emptyTT ttSize, 0, 0⟩

/-- `Search::should_check_time`: poll only every `CHECK_FREQUENCY` nodes. -/
def shouldCheckTime (tmStop : Nat → Bool) (st : SearchState) : Bool × SearchState :=
  let c := st.nodesSinceTimeCheck + 1
  if c ≥ CHECK_FREQUENCY then (tmStop st.nodesSearched, { st with nodesSinceTimeCheck := 0 })
  else (false, { st with nodesSinceTimeCheck := c })

/-- The killer-table update on a beta cutoff:
`killer[kp][1] ← killer[kp][0]; killer[kp][0] ← m`. -/
def updateKillers (killers : Nat → Nat → Move) (kp : Nat) (m : Move) :
    Nat → Nat → Move :=
  fun p s =>
    if p = kp then
      if s = 0 then m
      else if s = 1 then killers kp 0
      else killers p s
    else killers p s

/-- The per-move score of `Search::order_moves`. -/
def moveScore (pos : Position) (ttMove : Move) (killers : Nat → Nat → Move)
    (m : Move) : Int :=
  if ttMove.fromSq ≠ 65 ∧ moveEqSem m ttMove then TT_MOVE_SCORE
  else if m.moveType = .Capture ∨ m.moveType = .EnPassant then
    let victim :=
      if m.moveType = .EnPassant then (if pos.sideToMove = 0 then 6 else 0)
      else pieceOn pos m.toSq
    let attacker := pieceOn pos m.fromSq
    if attacker ≠ 13 ∧ victim ≠ 13 then
      WINNING_CAPTURE_SCORE + (MVV_LVA_OFFSET.getD (typeOf attacker) []).getD (typeOf victim) 0
    else 0
  else if m.moveType = .Promotion then
    PROMOTION_SCORE + getPieceValue (typeOf m.promotionPiece)
  else if moveEqSem m (killers (min pos.moveHistory.length (MAX_PLY - 1)) 0) then
    KILLER_MOVE_1_SCORE
  else if moveEqSem m (killers (min pos.moveHistory.length (MAX_PLY - 1)) 1) then
    KILLER_MOVE_2_SCORE
  else 0

/-- Stable insertion into a list sorted by descending score. -/
def insertByScore (x : Move × Int) : List (Move × Int) → List (Move × Int)
  | [] => [x]
  | y :: ys => if y.2 > x.2 then y :: insertByScore x ys else x :: y :: ys

/-- Stable descending sort by score.  The source sorts with `std::sort` and the
comparator `a.second > b.second`, whose order among equal scores is
unspecified; the model fixes the stable order (one of the permutations the
source may produce). -/
def sortByScoreDesc : List (Move × Int) → List (Move × Int)
  | [] => []
  | x :: xs => insertByScore x (sortByScoreDesc xs)

/-- `Search::order_moves`. -/
def orderMoves (moves : List Move) (pos : Position) (ttMove : Move)
    (killers : Nat → Nat → Move) : List Move :=
  (sortByScoreDesc (moves.map (fun m => (m, moveScore pos ttMove killers m)))).map (·.1)

/-- The capture loop of `Search::quiescence`, parameterized by the recursive
call (`qcall made (-beta) (-alpha) st` is `-quiescence(pos, -beta, -alpha, ply+1)`
after `make_move`; the loop continues on the undone position). -/
def qLoop (qcall : Position → Int → Int → SearchState → Int × SearchState) :
    List Move → Position → Int → Int → SearchState → Int × SearchState
  | [], _, alpha, _, st => (alpha, st)
  | m :: rest, pos, alpha, beta, st =>
    if st.stopSearch then (alpha, st)
    else
      let made := makeMove pos m
      let r := qcall made (-beta) (-alpha) st
      let score := -r.1
      let st1 := r.2
      let posU := undoMove made
      if score ≥ beta then (beta, st1)
      else
        let alpha := if score > alpha then score else alpha
        qLoop qcall rest posU alpha beta st1

/-- `Search::quiescence`.  The source recursion is bounded only by the board
(captures, en passants and promotions strictly shrink the material measure),
not by a depth counter; the structural `fuel` argument makes that bound
explicit and is unreachable when callers pass a fuel above the maximal
capture-chain length. -/
def quiescence (evalF : Position → Int) (tmStop : Nat → Bool) :
    Nat → Position → Int → Int → Nat → SearchState → Int × SearchState
  | 0, _, alpha, _, _, st => (alpha, st)
  | fuel + 1, pos, alpha, beta, ply, st =>
    let tc := shouldCheckTime tmStop st
    if tc.1 then (0, { tc.2 with stopSearch := true })
    else
      let st := { tc.2 with nodesSearched := tc.2.nodesSearched + 1 }
      let standPat := evalF pos
      if standPat ≥ beta then (beta, st)
      else
        let alpha := if alpha < standPat then standPat else alpha
        let allMoves := generateLegalMoves pos
        let captures := allMoves.filter (fun m =>
          m.moveType = .Capture ∨ m.moveType = .EnPassant ∨ m.moveType = .Promotion)
        let captures := orderMoves captures pos defaultMove st.killerMoves
        qLoop (fun p a b s => quiescence evalF tmStop fuel p a b (ply + 1) s)
          captures pos alpha beta st

/-- The move loop of `Search::negamax`, parameterized by the recursive call.
On a beta cutoff the killer table is updated at
`min(pos.move_count(), MAX_PLY - 1)` — the move count of the undone
position — for non-capture moves, and the loop breaks with `beta`. -/
def negamaxLoop (childCall : Position → Int → Int → SearchState → Int × SearchState) :
    List Move → Position → Int → Int → Int → Move → SearchState → Int × Move × SearchState
  | [], _, _, _, best, bestM, st => (best, bestM, st)
  | m :: rest, pos, alpha, beta, best, bestM, st =>
    if st.stopSearch then (best, bestM, st)
    else
      let made := makeMove pos m
      let r := childCall made (-beta) (-alpha) st
      let score := -r.1
      let st1 := r.2
      let posU := undoMove made
      if st1.stopSearch then (best, bestM, st1)
      else
        let bba :=
          if score > best then (score, m, if score > alpha then score else alpha)
          else (best, bestM, alpha)
        let best := bba.1
        let bestM := bba.2.1
        let alpha := bba.2.2
        if score ≥ beta then
          let killerPly := min posU.moveHistory.length (MAX_PLY - 1)
          let st2 :=
            if m.moveType ≠ .Capture then
              { st1 with killerMoves := updateKillers st1.killerMoves killerPly m }
            else st1
          (beta, m, st2)
        else negamaxLoop childCall rest posU alpha beta best bestM st1

/-- `Search::negamax`.  The phases follow the source order: time poll, node
count, TT probe (with its possible early returns and window tightening), legal
move generation with the mate/stalemate return, the quiescence hand-off at
depth 0, move ordering, the move loop, and the unconditional TT store. -/
def negamax (evalF : Position → Int) (tmStop : Nat → Bool) (qfuel : Nat) :
    Nat → Position → Int → Int → Nat → SearchState → Int × SearchState
  | depth, pos, alpha, beta, ply, st =>
    let tc := shouldCheckTime tmStop st
    if tc.1 then (0, { tc.2 with stopSearch := true })
    else
      let st := { tc.2 with nodesSearched := tc.2.nodesSearched + 1 }
      let originalAlpha := alpha
      let hashKey := pos.hashKey
      let probePhase : Sum (Int × SearchState) (Int × Int × Move × SearchState) :=
        match ttProbe st.tt hashKey ply with
        | none => .inr (alpha, beta, defaultMove, st)
        | some (ttScore, ttDepth, ttBound, ttMove) =>
          if ttDepth ≥ (depth : Int) then
            let step :
                Option Int × Int × Int × SearchState :=
              if ttBound = 1 then
                (some ttScore, alpha, beta,
                 { st with ttHits := st.ttHits + 1, ttCutoffs := st.ttCutoffs + 1 })
              else if ttBound = 2 then
                if ttScore ≥ beta then
                  (some ttScore, alpha, beta,
                   { st with ttHits := st.ttHits + 1, ttCutoffs := st.ttCutoffs + 1 })
                else
                  (none, max alpha ttScore, beta, { st with ttHits := st.ttHits + 1 })
              else if ttBound = 3 then
                if ttScore ≤ alpha then
                  (some ttScore, alpha, beta,
                   { st with ttHits := st.ttHits + 1, ttCutoffs := st.ttCutoffs + 1 })
                else
                  (none, alpha, min beta ttScore, { st with ttHits := st.ttHits + 1 })
              else (none, alpha, beta, st)
            match step with
            | (some s, _, _, st') => .inl (s, st')
            | (none, alpha', beta', st') =>
              if alpha' ≥ beta' then .inl (ttScore, { st' with ttCutoffs := st'.ttCutoffs + 1 })
              else .inr (alpha', beta', ttMove, st')
          else .inr (alpha, beta, ttMove, { st with ttHits := st.ttHits + 1 })
      match probePhase with
      | .inl r => r
      | .inr (alpha, beta, ttMove, st) =>
        let legalMoves := generateLegalMoves pos
        if legalMoves = [] then
          if isInCheck pos then (-MATE_SCORE + pos.moveHistory.length, st)
          else (0, st)
        else
          match depth with
          | 0 => quiescence evalF tmStop qfuel pos alpha beta ply st
          | d + 1 =>
            let ordered := orderMoves legalMoves pos ttMove st.killerMoves
            let lr := negamaxLoop
              (fun p a b s => negamax evalF tmStop qfuel d p a b (ply + 1) s)
              ordered pos alpha beta (-INFINITY_SCORE) defaultMove st
            let bestScore := lr.1
            let bestMove := lr.2.1
            let st' := lr.2.2
            let boundType : Nat :=
              if bestScore ≤ originalAlpha then 3
              else if bestScore ≥ beta then 2
              else 1
            (bestScore,
             { st' with tt := ttStore st'.tt hashKey bestScore (depth : Int) boundType bestMove ply })

/-- The root move loop of `Search::negamax_root`: like the interior loop, but
killer updates on a cutoff go to index 0 and the cutoff returns `beta`
directly. -/
def negamaxRootLoop (childCall : Position → Int → Int → SearchState → Int × SearchState) :
    List Move → Position → Int → Int → Int → Move → SearchState → Int × Move × SearchState
  | [], _, _, _, best, bestM, st => (best, bestM, st)
  | m :: rest, pos, alpha, beta, best, bestM, st =>
    if st.stopSearch then (best, bestM, st)
    else
      let made := makeMove pos m
      let r := childCall made (-beta) (-alpha) st
      let score := -r.1
      let st1 := r.2
      let posU := undoMove made
      if st1.stopSearch then (best, bestM, st1)
      else
        let bba :=
          if score > best then (score, m, if score > alpha then score else alpha)
          else (best, bestM, alpha)
        let best := bba.1
        let bestM := bba.2.1
        let alpha := bba.2.2
        if score ≥ beta then
          let st2 :=
            if m.moveType ≠ .Capture then
              { st1 with killerMoves := updateKillers st1.killerMoves 0 m }
            else st1
          (beta, bestM, st2)
        else negamaxRootLoop childCall rest posU alpha beta best bestM st1

/-- `Search::negamax_root`.  The `best_move` reference parameter becomes the
`bestMove0` input and the returned move. -/
def negamaxRoot (evalF : Position → Int) (tmStop : Nat → Bool) (qfuel : Nat)
    (depth : Nat) (pos : Position) (alpha beta : Int) (bestMove0 : Move)
    (ply : Nat) (st : SearchState) : Int × Move × SearchState :=
  let tc := shouldCheckTime tmStop st
  if tc.1 then (0, bestMove0, { tc.2 with stopSearch := true })
  else
    let st := { tc.2 with nodesSearched := tc.2.nodesSearched + 1 }
    let legalMoves := generateLegalMoves pos
    if legalMoves = [] then
      if isInCheck pos then (-MATE_SCORE + pos.moveHistory.length, bestMove0, st)
      else (0, bestMove0, st)
    else
      let ordered := orderMoves legalMoves pos defaultMove st.killerMoves
      negamaxRootLoop
        (fun p a b s => negamax evalF tmStop qfuel (depth - 1) p a b (ply + 1) s)
        ordered pos alpha beta (-INFINITY_SCORE) bestMove0 st

/-! ## Concrete scenario definitions used by the theorems -/

/-- A stand-in evaluator (the `Search` constructor takes an `Evaluator*`;
no claim below depends on the evaluation values). -/
def constEval0 : Position → Int := fun _ => 0

/-- The never-stopping time oracle (a null `time_manager_`). -/
def tmNever : Nat → Bool := fun _ => false

/-- The back-rank mate scenario of the spec (`R6k/8/7K/8/8/8/8/8 b - - 0 1`). -/
def matePos : Position := (loadFen emptyPosition "R6k/8/7K/8/8/8/8/8 b - - 0 1").2

/-- The two-kings stalemate scenario (`k7/8/1K6/8/8/8/8/8 b - - 0 1`). -/
def stalePos : Position := (loadFen emptyPosition "k7/8/1K6/8/8/8/8/8 b - - 0 1").2

/-- A position one move before `c9pos` (Black to move). -/
def c9pre : Position := (loadFen emptyPosition "1k6/8/PK6/8/8/8/8/8 b - - 0 1").2

/-- White to move with one game move of history (after `b8a8`); the pawn push
`a6a7` stalemates Black immediately, so a search at this node cuts off on a
quiet move without consulting the evaluator. -/
def c9pos : Position := makeMove c9pre (mkMove 57 56 .Normal)

/-- A table state whose slot 1 holds a valid entry of the current age with
depth 7 under a different key. -/
def rejectTT : TranspositionTable :=
  ⟨2, fun i => if i = 1 then ⟨9, 0, 7, 1, 0, defaultMove⟩ else defaultTTEntry, 0⟩

/-- A FEN whose six fields parse but whose board string contains the unknown
piece character `X` at the last square. -/
def badFen : String := "rnbqkbnr/pppppppp/8/8/8/8/PPPPPPPP/RNBQKBNX w KQkq - 0 1"

/-! ## Bit lemmas -/

theorem testBit_two_mul_zero (x : Nat) : Nat.testBit (2 * x) 0 = false := by
  simp [Nat.testBit_zero, Nat.mul_mod_right]

theorem testBit_two_mul_succ (x i : Nat) : Nat.testBit (2 * x) (i + 1) = Nat.testBit x i := by
  rw [Nat.testBit_add_one]
  congr 1
  omega

theorem and_two_mul (x y : Nat) : (2 * x) &&& (2 * y) = 2 * (x &&& y) := by
  apply Nat.eq_of_testBit_eq
  intro i
  cases i with
  | zero => simp [Nat.testBit_land, testBit_two_mul_zero]
  | succ i => simp [Nat.testBit_land, testBit_two_mul_succ]

theorem testBit_even_add_one (x : Nat) (hx : x % 2 = 0) (i : Nat) :
    Nat.testBit (x + 1) (i + 1) = Nat.testBit x (i + 1) := by
  rw [Nat.testBit_add_one, Nat.testBit_add_one]
  congr 1
  omega

/-- Two's-complement LSB isolation: for `0 < bb < 2 ^ w`,
`bb &&& (2 ^ w - bb)` is the power of two at `bb`'s least significant set bit. -/
theorem lsb_isolate : ∀ bb w, bb ≠ 0 → bb < 2 ^ w →
    ∃ k, Nat.testBit bb k = true ∧ (∀ j < k, Nat.testBit bb j = false) ∧
      bb &&& (2 ^ w - bb) = 2 ^ k ∧ k < w := by
  intro bb
  induction bb using Nat.strong_induction_on with
  | _ bb ih =>
    intro w hne hlt
    rcases Nat.even_or_odd bb with heven | hodd
    · -- bb = 2 * b
      obtain ⟨b, hb⟩ := heven
      have hb2 : bb = 2 * b := by omega
      have hbne : b ≠ 0 := by omega
      have hw : w ≠ 0 := by
        intro h; subst h; simp at hlt; omega
      obtain ⟨w', rfl⟩ : ∃ w', w = w' + 1 := ⟨w - 1, by omega⟩
      have hblt : b < 2 ^ w' := by
        have : 2 * b < 2 * 2 ^ w' := by
          calc 2 * b = bb := hb2.symm
          _ < 2 ^ (w' + 1) := hlt
          _ = 2 * 2 ^ w' := by ring
        omega
      obtain ⟨k, hk1, hk2, hk3, hk4⟩ := ih b (by omega) w' hbne hblt
      refine ⟨k + 1, ?_, ?_, ?_, by omega⟩
      · rw [hb2, testBit_two_mul_succ]; exact hk1
      · intro j hj
        cases j with
        | zero => rw [hb2]; exact testBit_two_mul_zero b
        | succ j => rw [hb2, testBit_two_mul_succ]; exact hk2 j (by omega)
      · have hsub : 2 ^ (w' + 1) - bb = 2 * (2 ^ w' - b) := by
          rw [hb2]; rw [Nat.pow_succ]; omega
        rw [hb2] at hsub
        rw [hb2, hsub, and_two_mul, hk3, Nat.pow_succ]; ring
    · -- bb odd: k = 0
      have hodd' : bb % 2 = 1 := Nat.odd_iff.mp hodd
      have hw : w ≠ 0 := by
        intro h; subst h; simp at hlt; omega
      refine ⟨0, by simp [Nat.testBit_zero, hodd'], by omega, ?_, by omega⟩
      apply Nat.eq_of_testBit_eq
      intro i
      cases i with
      | zero =>
        have h2w : 2 ^ w % 2 = 0 := by
          have : (2:Nat) ∣ 2 ^ w := dvd_pow_self 2 hw
          omega
        have : (2 ^ w - bb) % 2 = 1 := by omega
        simp [Nat.testBit_zero, hodd', this]
      | succ i =>
        have hbb1 : bb - 1 < 2 ^ w := by omega
        have hsub : 2 ^ w - bb = 2 ^ w - ((bb - 1) + 1) := by omega
        rw [Nat.testBit_land, hsub, Nat.testBit_two_pow_sub_succ hbb1]
        have heq : Nat.testBit (bb - 1) (i + 1) = Nat.testBit bb (i + 1) := by
          have h1 : (bb - 1) % 2 = 0 := by omega
          have h2 : (bb - 1) + 1 = bb := by omega
          conv_rhs => rw [← h2]
          rw [testBit_even_add_one _ h1]
        rw [heq]
        have hrhs : Nat.testBit (2 ^ 0) (i + 1) = false :=
          Nat.testBit_two_pow_of_ne (by omega)
        rw [hrhs]
        cases h : Nat.testBit bb (i + 1) <;> simp [h]

theorem indexOfMaskAux_two_pow : ∀ fuel i k, i ≤ k → k - i < fuel →
    indexOfMaskAux fuel (2 ^ k) i = k := by
  intro fuel
  induction fuel with
  | zero => omega
  | succ fuel ih =>
    intro i k hik hfuel
    rw [indexOfMaskAux]
    by_cases h : i = k
    · subst h
      have : (2 : Nat) ^ i >>> i = 1 := by
        rw [Nat.shiftRight_eq_div_pow, Nat.div_self (Nat.pos_pow_of_pos i (by omega))]
      simp [this]
    · have hlt : i < k := by omega
      have : (2 : Nat) ^ k >>> i = 2 ^ (k - i) := by
        rw [Nat.shiftRight_eq_div_pow, Nat.pow_div (by omega) (by omega)]
      have hne : (2 : Nat) ^ k >>> i ≠ 1 := by
        rw [this]
        have : (2:Nat) ^ (k - i) ≥ 2 ^ 1 := Nat.pow_le_pow_right (by omega) (by omega)
        omega
      simp only [hne, if_false]
      exact ih (i + 1) k (by omega) (by omega)

theorem indexOfMask_two_pow (k : Nat) (hk : k < 64) : indexOfMask (2 ^ k) = k :=
  indexOfMaskAux_two_pow 64 0 k (by omega) (by omega)

/-- The isolated-LSB mask computed by `pop_lsb`/`get_lsb_index` equals the
power of two at the least significant set bit. -/
theorem lsbMask_eq (bb : Nat) (hne : bb ≠ 0) (hlt : bb < 2 ^ 64) :
    ∃ k, Nat.testBit bb k = true ∧ (∀ j < k, Nat.testBit bb j = false) ∧
      bb &&& ((compl64 bb + 1) % 2 ^ 64) = 2 ^ k ∧ k < 64 := by
  obtain ⟨k, h1, h2, h3, h4⟩ := lsb_isolate bb 64 hne hlt
  refine ⟨k, h1, h2, ?_, h4⟩
  have hcompl : compl64 bb = 2 ^ 64 - (bb + 1) := by
    apply Nat.eq_of_testBit_eq
    intro i
    rw [compl64, mask64, Nat.testBit_xor, Nat.testBit_two_pow_sub_succ hlt,
      Nat.testBit_two_pow_sub_one]
    by_cases hi : i < 64
    · simp [hi]
    · have : Nat.testBit bb i = false :=
        Nat.testBit_lt_two_pow (lt_of_lt_of_le hlt (Nat.pow_le_pow_right (by omega) (by omega)))
      simp [hi, this]
  have hsum : compl64 bb + 1 = 2 ^ 64 - bb := by
    rw [hcompl]; omega
  have hmod : (2 ^ 64 - bb) % 2 ^ 64 = 2 ^ 64 - bb := Nat.mod_eq_of_lt (by omega)
  rw [hsum, hmod, h3]

theorem getLsbIndex_spec (bb : Nat) (hne : bb ≠ 0) (hlt : bb < 2 ^ 64) :
    Nat.testBit bb (getLsbIndex bb) = true ∧
      (∀ j < getLsbIndex bb, Nat.testBit bb j = false) ∧ getLsbIndex bb < 64 := by
  obtain ⟨k, h1, h2, h3, h4⟩ := lsbMask_eq bb hne hlt
  have : getLsbIndex bb = k := by
    rw [getLsbIndex, if_neg hne, h3, indexOfMask_two_pow k h4]
  rw [this]
  exact ⟨h1, h2, h4⟩

theorem popLsb_spec (bb : Nat) (hne : bb ≠ 0) (hlt : bb < 2 ^ 64) :
    Nat.testBit bb (popLsb bb).1 = true ∧
      (∀ j < (popLsb bb).1, Nat.testBit bb j = false) ∧ (popLsb bb).1 < 64 ∧
      ∀ j, Nat.testBit (popLsb bb).2 j =
        (Nat.testBit bb j && ! decide (j = (popLsb bb).1)) := by
  obtain ⟨k, h1, h2, h3, h4⟩ := lsbMask_eq bb hne hlt
  have hfst : (popLsb bb).1 = k := by
    rw [popLsb, if_neg hne]
    simp only
    rw [h3, indexOfMask_two_pow k h4]
  have hsnd : (popLsb bb).2 = bb &&& compl64 (2 ^ k) := by
    rw [popLsb, if_neg hne]
    simp only
    rw [h3]
  rw [hfst, hsnd]
  refine ⟨h1, h2, h4, fun j => ?_⟩
  rw [Nat.testBit_land, compl64, mask64, Nat.testBit_xor, Nat.testBit_two_pow_sub_one,
    Nat.testBit_two_pow]
  by_cases hj : j < 64
  · by_cases hjk : k = j <;> simp [hj, hjk]
    · omega
  · have : Nat.testBit bb j = false :=
      Nat.testBit_lt_two_pow (lt_of_lt_of_le hlt (Nat.pow_le_pow_right (by omega) (by omega)))
    simp [this]

theorem msbAux_spec : ∀ fuel i bb, (∃ j, j ≤ i ∧ Nat.testBit bb j = true) → i < fuel →
    Nat.testBit bb (msbAux fuel bb i) = true ∧ msbAux fuel bb i ≤ i := by
  intro fuel
  induction fuel with
  | zero => omega
  | succ fuel ih =>
    intro i bb hex hfuel
    rw [msbAux]
    by_cases h : (bb >>> i) &&& 1 = 0
    · have hbit : Nat.testBit bb i = false := by
        rw [Nat.testBit_to_div_mod]
        rw [Nat.and_one_is_mod, Nat.shiftRight_eq_div_pow] at h
        simp [h]
      rw [if_pos h]
      obtain ⟨j, hj1, hj2⟩ := hex
      have hji : j ≠ i := fun he => by rw [he] at hj2; rw [hj2] at hbit; exact Bool.noConfusion hbit
      obtain ⟨hr1, hr2⟩ := ih (i - 1) bb ⟨j, by omega, hj2⟩ (by omega)
      exact ⟨hr1, by omega⟩
    · have hbit : Nat.testBit bb i = true := by
        rw [Nat.testBit_to_div_mod]
        rw [Nat.and_one_is_mod, Nat.shiftRight_eq_div_pow] at h
        have h1 : bb / 2 ^ i % 2 = 1 := by omega
        simp [h1]
      rw [if_neg h]
      exact ⟨hbit, le_refl i⟩

theorem getMsbIndex_spec (bb : Nat) (hne : bb ≠ 0) (hlt : bb < 2 ^ 64) :
    Nat.testBit bb (getMsbIndex bb) = true ∧ getMsbIndex bb < 64 := by
  obtain ⟨h1, _, h3⟩ := getLsbIndex_spec bb hne hlt
  have hex : ∃ j, j ≤ 63 ∧ Nat.testBit bb j = true := ⟨getLsbIndex bb, by omega, h1⟩
  obtain ⟨hm1, hm2⟩ := msbAux_spec 64 63 bb hex (by omega)
  rw [getMsbIndex, if_neg hne]
  exact ⟨hm1, by omega⟩

/-- C10: on the empty bitboard, `pop_lsb`, `get_lsb_index` and `get_msb_index`
all return `Square::None` (65) and `pop_lsb` leaves the board unchanged; on a
nonempty bitboard, `pop_lsb` returns the index of the least significant set
bit and clears exactly that bit. -/
theorem C10_pop_lsb_and_sentinels (bb : Nat) (hbb : bb < 2 ^ 64) :
    (bb = 0 → popLsb bb = (65, bb) ∧ getLsbIndex bb = 65 ∧ getMsbIndex bb = 65) ∧
    (bb ≠ 0 →
      Nat.testBit bb (popLsb bb).1 = true ∧
      (∀ j < (popLsb bb).1, Nat.testBit bb j = false) ∧
      (∀ j, Nat.testBit (popLsb bb).2 j =
        (Nat.testBit bb j && ! decide (j = (popLsb bb).1)))) := by
  constructor
  · intro h; subst h; exact ⟨rfl, rfl, rfl⟩
  · intro h
    obtain ⟨h1, h2, _, h4⟩ := popLsb_spec bb h hbb
    exact ⟨h1, h2, h4⟩

/-- Witness for C10 at the empty board and at `bb = 40 = 0b101000`. -/
theorem C10_pop_lsb_and_sentinels_witness :
    (popLsb 0 = (65, 0) ∧ getLsbIndex 0 = 65 ∧ getMsbIndex 0 = 65) ∧
    Nat.testBit 40 (popLsb 40).1 = true ∧
    Nat.testBit (popLsb 40).2 3 =
      (Nat.testBit 40 3 && ! decide (3 = (popLsb 40).1)) :=
  ⟨(C10_pop_lsb_and_sentinels 0 (by decide)).1 rfl,
   ((C10_pop_lsb_and_sentinels 40 (by decide)).2 (by decide)).1,
   ((C10_pop_lsb_and_sentinels 40 (by decide)).2 (by decide)).2.2 3⟩

/-! ## C2: slider attacks against the claim's per-ray description -/

/-- One ray truncated per the claim: the whole ray when no blocker sits on it;
otherwise everything up to and including the nearest blocker — chosen by LSB
when `positive` (N, NE, E, NW) and by MSB otherwise (S, SW, W, SE) — with the
squares strictly beyond the blocker (the blocker's own ray) removed. -/
def truncatedRay (sq occ : Nat) (dir : Direction) (positive : Bool) : Nat :=
  let ray := rayTable dir sq
  let blockers := ray &&& occ
  if blockers = 0 then ray
  else
    let nearest := if positive then getLsbIndex blockers else getMsbIndex blockers
    ray &&& compl64 (rayTable dir nearest)

/-- The claim's reading of `bishop_attacks`: the union of the four truncated
diagonal rays. -/
def bishopAttacksSpec (sq occ : Nat) : Nat :=
  truncatedRay sq occ .NorthEast true ||| truncatedRay sq occ .NorthWest true |||
    truncatedRay sq occ .SouthEast false ||| truncatedRay sq occ .SouthWest false

/-- The claim's reading of `rook_attacks`. -/
def rookAttacksSpec (sq occ : Nat) : Nat :=
  truncatedRay sq occ .North true ||| truncatedRay sq occ .East true |||
    truncatedRay sq occ .South false ||| truncatedRay sq occ .West false

theorem countBitsAux_pos : ∀ fuel bb, bb ≠ 0 → bb < 2 ^ fuel → 0 < countBitsAux fuel bb := by
  intro fuel
  induction fuel with
  | zero => intro bb h1 h2; omega
  | succ fuel ih =>
    intro bb h1 h2
    rw [countBitsAux, if_neg h1]
    rcases Nat.eq_zero_or_pos (bb &&& 1) with h | h
    · have hb2 : bb % 2 = 0 := by
        rw [Nat.and_one_is_mod] at h; exact h
      have hne : bb >>> 1 ≠ 0 := by
        rw [Nat.shiftRight_one]
        omega
      have hlt : bb >>> 1 < 2 ^ fuel := by
        rw [Nat.shiftRight_one]
        rw [Nat.pow_succ] at h2
        omega
      have := ih (bb >>> 1) hne hlt
      omega
    · omega

/-- `squaresOf` (the pop-LSB loop) enumerates exactly the set bits. -/
theorem squaresOfAux_mem : ∀ fuel bb, bb < 2 ^ 64 →
    (Finset.filter (fun i => Nat.testBit bb i = true) (Finset.range 64)).card ≤ fuel →
    ∀ b, b ∈ squaresOfAux fuel bb ↔ Nat.testBit bb b = true := by
  intro fuel
  induction fuel with
  | zero =>
    intro bb hlt hcard b
    rcases Nat.eq_zero_or_pos bb with rfl | hpos
    · simp [squaresOfAux]
    · obtain ⟨h1, _, h3⟩ := getLsbIndex_spec bb (by omega) hlt
      exfalso
      have : getLsbIndex bb ∈
          Finset.filter (fun i => Nat.testBit bb i = true) (Finset.range 64) := by
        simp [Finset.mem_filter, Finset.mem_range, h1, h3]
      have := Finset.card_pos.mpr ⟨_, this⟩
      omega
  | succ fuel ih =>
    intro bb hlt hcard b
    rcases Nat.eq_zero_or_pos bb with rfl | hpos
    · simp [squaresOfAux, countBits, countBitsAux]
    · have hne : bb ≠ 0 := by omega
      have hcb : 0 < countBits bb := countBitsAux_pos 64 bb hne hlt
      rw [squaresOfAux, if_pos hcb]
      obtain ⟨h1, _, h3, h4⟩ := popLsb_spec bb hne hlt
      have hlt2 : (popLsb bb).2 < 2 ^ 64 := by
        have : (popLsb bb).2 ≤ bb := by
          rcases hp : popLsb bb with ⟨k, bb2⟩
          rw [popLsb, if_neg hne] at hp
          simp only at hp
          cases hp
          exact Nat.and_le_left
        omega
      have hset : Finset.filter (fun i => Nat.testBit (popLsb bb).2 i = true) (Finset.range 64) =
          (Finset.filter (fun i => Nat.testBit bb i = true) (Finset.range 64)).erase (popLsb bb).1 := by
        ext i
        simp only [Finset.mem_filter, Finset.mem_range, Finset.mem_erase, h4]
        by_cases hik : i = (popLsb bb).1 <;> simp [hik]
      have hmem : (popLsb bb).1 ∈
          Finset.filter (fun i => Nat.testBit bb i = true) (Finset.range 64) := by
        simp [Finset.mem_filter, Finset.mem_range, h1, h3]
      have hcard2 :
          (Finset.filter (fun i => Nat.testBit (popLsb bb).2 i = true) (Finset.range 64)).card ≤ fuel := by
        rw [hset, Finset.card_erase_of_mem hmem]
        have := Finset.card_pos.mpr ⟨_, hmem⟩
        omega
      rw [List.mem_cons, ih (popLsb bb).2 hlt2 hcard2 b]
      constructor
      · rintro (rfl | hmem2)
        · exact h1
        · rw [h4] at hmem2
          exact (Bool.and_eq_true _ _ |>.mp hmem2).1
      · intro hb
        by_cases hbk : b = (popLsb bb).1
        · exact Or.inl hbk
        · refine Or.inr ?_
          rw [h4, hb]
          simp [hbk]

theorem countBits_card_le (bb : Nat) :
    (Finset.filter (fun i => Nat.testBit bb i = true) (Finset.range 64)).card ≤ 64 := by
  calc (Finset.filter (fun i => Nat.testBit bb i = true) (Finset.range 64)).card
      ≤ (Finset.range 64).card := Finset.card_filter_le _ _
  _ = 64 := Finset.card_range 64

theorem squaresOf_mem (bb : Nat) (hlt : bb < 2 ^ 64) (b : Nat) :
    b ∈ squaresOf bb ↔ Nat.testBit bb b = true :=
  squaresOfAux_mem 64 bb hlt (countBits_card_le bb) b

set_option maxHeartbeats 4000000 in
/-! Per-direction characterization of the ray tables.  `dirStep`/`dirLen` are
proof-side names for the per-direction arithmetic of `generate_ray`. -/

def dirStep (d : Direction) (sq i : Nat) : Nat :=
  match d with
  | .North => sq + i * 8
  | .South => sq - i * 8
  | .East => sq + i
  | .West => sq - i
  | .NorthEast => sq + i * 9
  | .NorthWest => sq + i * 7
  | .SouthEast => sq - i * 7
  | .SouthWest => sq - i * 9

def dirLen (d : Direction) (sq : Nat) : Nat :=
  match d with
  | .North => 8 - rankOf sq
  | .South => rankOf sq + 1
  | .East => 8 - fileOf sq
  | .West => fileOf sq + 1
  | .NorthEast => min (8 - rankOf sq) (8 - fileOf sq)
  | .NorthWest => min (8 - rankOf sq) (fileOf sq + 1)
  | .SouthEast => min (rankOf sq + 1) (8 - fileOf sq)
  | .SouthWest => min (rankOf sq + 1) (fileOf sq + 1)

theorem setBit_testBit (a s t : Nat) :
    Nat.testBit (setBit a s) t = (Nat.testBit a t || decide (t = s)) := by
  rw [setBit, Nat.testBit_lor, Nat.one_shiftLeft, Nat.testBit_two_pow]
  by_cases h : s = t <;> simp [h, eq_comm]

theorem orSquares_foldl_testBit : ∀ (l : List Nat) (acc t : Nat),
    Nat.testBit (l.foldl (fun a s => setBit a s) acc) t =
      (Nat.testBit acc t || decide (t ∈ l)) := by
  intro l
  induction l with
  | nil => intro acc t; simp
  | cons s l ih =>
    intro acc t
    rw [List.foldl_cons, ih, setBit_testBit]
    by_cases h1 : t = s <;> by_cases h2 : t ∈ l <;> simp [h1, h2]

theorem orSquares_testBit (l : List Nat) (t : Nat) :
    Nat.testBit (orSquares l) t = decide (t ∈ l) := by
  rw [orSquares, orSquares_foldl_testBit]
  simp

theorem orSquares_lt_aux : ∀ (l : List Nat) (acc : Nat), acc < 2 ^ 64 →
    (∀ s ∈ l, s < 64) → l.foldl (fun a s => setBit a s) acc < 2 ^ 64 := by
  intro l
  induction l with
  | nil => intro acc h _; simpa using h
  | cons s l ih =>
    intro acc hacc hl
    rw [List.foldl_cons]
    refine ih _ ?_ (fun x hx => hl x (List.mem_cons_of_mem s hx))
    rw [setBit, Nat.one_shiftLeft]
    exact Nat.or_lt_two_pow hacc
      (Nat.pow_lt_pow_right (by omega) (hl s (List.mem_cons_self s l)))

theorem orSquares_lt (l : List Nat) (h : ∀ s ∈ l, s < 64) : orSquares l < 2 ^ 64 :=
  orSquares_lt_aux l 0 (by simp) h

theorem lineRay_mem (step : Nat → Nat) (len b : Nat) :
    Nat.testBit (orSquares ((List.range' 1 (len - 1)).map step)) b = true ↔
      ∃ i, 1 ≤ i ∧ i < len ∧ b = step i := by
  rw [orSquares_testBit]
  simp only [decide_eq_true_eq, List.mem_map, List.mem_range']
  constructor
  · rintro ⟨i, ⟨j, hj, rfl⟩, rfl⟩
    exact ⟨1 + 1 * j, by omega, by omega, rfl⟩
  · rintro ⟨i, hi1, hi2, rfl⟩
    exact ⟨i, ⟨i - 1, by omega, by omega⟩, rfl⟩

theorem mem_ray (d : Direction) (sq b : Nat) :
    Nat.testBit (rayTable d sq) b = true ↔
      ∃ i, 1 ≤ i ∧ i < dirLen d sq ∧ b = dirStep d sq i := by
  cases d
  case North => exact lineRay_mem (fun i => sq + i * 8) (8 - rankOf sq) b
  case South => exact lineRay_mem (fun i => sq - i * 8) (rankOf sq + 1) b
  case East => exact lineRay_mem (fun i => sq + i) (8 - fileOf sq) b
  case West => exact lineRay_mem (fun i => sq - i) (fileOf sq + 1) b
  case NorthEast =>
    exact lineRay_mem (fun i => sq + i * 9) (min (8 - rankOf sq) (8 - fileOf sq)) b
  case NorthWest =>
    exact lineRay_mem (fun i => sq + i * 7) (min (8 - rankOf sq) (fileOf sq + 1)) b
  case SouthEast =>
    exact lineRay_mem (fun i => sq - i * 7) (min (rankOf sq + 1) (8 - fileOf sq)) b
  case SouthWest =>
    exact lineRay_mem (fun i => sq - i * 9) (min (rankOf sq + 1) (fileOf sq + 1)) b

theorem and_eq_left_of_imp (a r : Nat)
    (h : ∀ t, Nat.testBit a t = true → Nat.testBit r t = true) : a &&& r = a := by
  apply Nat.eq_of_testBit_eq
  intro t
  rw [Nat.testBit_land]
  cases ht : Nat.testBit a t
  · simp
  · simp [h t ht]

theorem and_eq_zero_of_imp (a b : Nat)
    (h : ∀ t, Nat.testBit a t = true → Nat.testBit b t = true → False) : a &&& b = 0 := by
  apply Nat.eq_of_testBit_eq
  intro t
  rw [Nat.testBit_land]
  cases ht : Nat.testBit a t
  · simp
  · cases ht2 : Nat.testBit b t
    · simp
    · exact absurd ht2 (by simpa using h t ht)

/-- A ray from a square of a ray is contained in the original ray. -/
theorem ray_sub (d : Direction) (sq b : Nat)
    (hb : Nat.testBit (rayTable d sq) b = true) :
    rayTable d b &&& rayTable d sq = rayTable d b := by
  apply and_eq_left_of_imp
  intro t ht
  rw [mem_ray] at hb ht ⊢
  obtain ⟨i, hi1, hi2, rfl⟩ := hb
  obtain ⟨j, hj1, hj2, rfl⟩ := ht
  refine ⟨i + j, by omega, ?_, ?_⟩ <;>
    cases d <;> simp only [dirStep, dirLen, rankOf, fileOf] at * <;> omega

/-- Rays in distinct directions from one square are disjoint. -/
theorem rays_disjoint (d d' : Direction) (hne : d ≠ d') (sq : Nat) :
    rayTable d sq &&& rayTable d' sq = 0 := by
  apply and_eq_zero_of_imp
  intro t ht ht'
  rw [mem_ray] at ht ht'
  obtain ⟨i, hi1, hi2, hit⟩ := ht
  obtain ⟨j, hj1, hj2, hjt⟩ := ht'
  rw [hit] at hjt
  cases d <;> cases d' <;>
    first
      | exact absurd rfl hne
      | (simp only [dirStep, dirLen, rankOf, fileOf] at hjt hi2 hj2 ⊢; omega)

theorem rayTable_lt (d : Direction) (sq : Nat) (hsq : sq < 64) :
    rayTable d sq < 2 ^ 64 := by
  cases d <;>
    (apply orSquares_lt
     intro s hs
     simp only [List.mem_map, List.mem_range'] at hs
     obtain ⟨i, ⟨j, hj, rfl⟩, rfl⟩ := hs
     simp only [rankOf, fileOf] at *
     omega)

theorem testBit_true_lt {a t : Nat} (h : Nat.testBit a t = true) (ha : a < 2 ^ 64) :
    t < 64 := by
  by_contra hge
  have : Nat.testBit a t = false :=
    Nat.testBit_lt_two_pow (lt_of_lt_of_le ha (Nat.pow_le_pow_right (by omega) (by omega)))
  rw [h] at this
  exact Bool.noConfusion this

theorem and_pointwise_zero {a b : Nat} (h : a &&& b = 0) (t : Nat) :
    ¬ (Nat.testBit a t = true ∧ Nat.testBit b t = true) := by
  rintro ⟨h1, h2⟩
  have := congrArg (fun x => Nat.testBit x t) h
  simp only [Nat.testBit_land, Nat.zero_testBit, h1, h2] at this
  exact Bool.noConfusion this

theorem disj_of_sub {x ray acc : Nat} (hsub : x &&& ray = x) (hdisj : acc &&& ray = 0) :
    acc &&& x = 0 := by
  apply and_eq_zero_of_imp
  intro t h1 h2
  have hsym : Nat.testBit (x &&& ray) t = Nat.testBit x t :=
    congrArg (fun z => Nat.testBit z t) hsub
  rw [Nat.testBit_land, h2, Bool.true_and] at hsym
  exact and_pointwise_zero hdisj t ⟨h1, hsym⟩

theorem or_disj {a b c : Nat} (h1 : a &&& c = 0) (h2 : b &&& c = 0) :
    (a ||| b) &&& c = 0 := by
  apply and_eq_zero_of_imp
  intro t ht hc
  rw [Nat.testBit_lor] at ht
  rcases Bool.or_eq_true _ _ |>.mp ht with h | h
  · exact and_pointwise_zero h1 t ⟨h, hc⟩
  · exact and_pointwise_zero h2 t ⟨h, hc⟩

theorem and_compl_or (acc ray x : Nat) (hacc : acc < 2 ^ 64) (hdisj : acc &&& x = 0) :
    (acc ||| ray) &&& compl64 x = acc ||| (ray &&& compl64 x) := by
  apply Nat.eq_of_testBit_eq
  intro t
  simp only [Nat.testBit_land, Nat.testBit_lor]
  cases ha : Nat.testBit acc t
  · simp
  · have ht64 : t < 64 := testBit_true_lt ha hacc
    have hx : Nat.testBit x t = false := by
      cases hx : Nat.testBit x t
      · rfl
      · exact absurd ⟨ha, hx⟩ (and_pointwise_zero hdisj t)
    have : Nat.testBit (compl64 x) t = true := by
      rw [compl64, mask64, Nat.testBit_xor, Nat.testBit_two_pow_sub_one, hx]
      simp [ht64]
    simp [this]

/-- The nearest-blocker square chosen in the slider loops is a set bit of the
blocker set. -/
theorem blockerSq_mem (blockers : Nat) (useLsb : Bool) (hne : blockers ≠ 0)
    (hlt : blockers < 2 ^ 64) :
    Nat.testBit blockers (if useLsb then getLsbIndex blockers else getMsbIndex blockers) = true := by
  cases useLsb
  · simpa using (getMsbIndex_spec blockers hne hlt).1
  · simpa using (getLsbIndex_spec blockers hne hlt).1

theorem truncatedRay_sub (sq occ : Nat) (dir : Direction) (positive : Bool) :
    truncatedRay sq occ dir positive &&& rayTable dir sq = truncatedRay sq occ dir positive := by
  simp only [truncatedRay]
  by_cases hb : rayTable dir sq &&& occ = 0
  · rw [if_pos hb]
    exact Nat.and_self _
  · rw [if_neg hb]
    apply and_eq_left_of_imp
    intro t ht
    rw [Nat.testBit_land] at ht
    exact (Bool.and_eq_true _ _).mp ht |>.1

theorem truncatedRay_lt (sq occ : Nat) (dir : Direction) (positive : Bool) (hsq : sq < 64) :
    truncatedRay sq occ dir positive < 2 ^ 64 := by
  rw [truncatedRay]
  by_cases hb : rayTable dir sq &&& occ = 0
  · simp only [hb, if_pos rfl]
    exact rayTable_lt dir sq hsq
  · simp only [hb, if_neg hb]
    exact lt_of_le_of_lt Nat.and_le_left (rayTable_lt dir sq hsq)

theorem bishopDirStep_eq (sq occ acc : Nat) (dir : Direction)
    (hocc : occ < 2 ^ 64) (hacc : acc < 2 ^ 64)
    (hdisj : acc &&& rayTable dir sq = 0) :
    bishopDirStep sq occ acc dir =
      acc ||| truncatedRay sq occ dir (decide (dir = .NorthEast ∨ dir = .NorthWest)) := by
  rw [bishopDirStep, truncatedRay]
  by_cases hb : rayTable dir sq &&& occ = 0
  · simp [hb]
  · simp only [hb, if_neg hb, ne_eq, not_false_eq_true, if_pos]
    have hblt : rayTable dir sq &&& occ < 2 ^ 64 := Nat.and_lt_two_pow _ hocc
    have hmem : Nat.testBit (rayTable dir sq &&& occ)
        (if decide (dir = .NorthEast ∨ dir = .NorthWest) then
          getLsbIndex (rayTable dir sq &&& occ) else getMsbIndex (rayTable dir sq &&& occ)) = true :=
      blockerSq_mem _ _ hb hblt
    by_cases hd : dir = .NorthEast ∨ dir = .NorthWest
    · simp only [hd, decide_True, if_pos rfl, if_true] at hmem ⊢
      have hray : Nat.testBit (rayTable dir sq) (getLsbIndex (rayTable dir sq &&& occ)) = true := by
        rw [Nat.testBit_land] at hmem
        exact (Bool.and_eq_true _ _).mp hmem |>.1
      have hsub := ray_sub dir sq _ hray
      exact and_compl_or acc _ _ hacc (disj_of_sub hsub hdisj)
    · simp only [hd, decide_False, if_neg, if_false] at hmem ⊢
      have hray : Nat.testBit (rayTable dir sq) (getMsbIndex (rayTable dir sq &&& occ)) = true := by
        rw [Nat.testBit_land] at hmem
        exact (Bool.and_eq_true _ _).mp hmem |>.1
      have hsub := ray_sub dir sq _ hray
      exact and_compl_or acc _ _ hacc (disj_of_sub hsub hdisj)

theorem rookDirStep_eq (sq occ acc : Nat) (dir : Direction)
    (hocc : occ < 2 ^ 64) (hacc : acc < 2 ^ 64)
    (hdisj : acc &&& rayTable dir sq = 0) :
    rookDirStep sq occ acc dir =
      acc ||| truncatedRay sq occ dir (decide (dir = .North ∨ dir = .East)) := by
  rw [rookDirStep, truncatedRay]
  by_cases hb : rayTable dir sq &&& occ = 0
  · simp [hb]
  · simp only [hb, if_neg hb, ne_eq, not_false_eq_true, if_pos]
    have hblt : rayTable dir sq &&& occ < 2 ^ 64 := Nat.and_lt_two_pow _ hocc
    have hmem : Nat.testBit (rayTable dir sq &&& occ)
        (if decide (dir = .North ∨ dir = .East) then
          getLsbIndex (rayTable dir sq &&& occ) else getMsbIndex (rayTable dir sq &&& occ)) = true :=
      blockerSq_mem _ _ hb hblt
    by_cases hd : dir = .North ∨ dir = .East
    · simp only [hd, decide_True, if_pos rfl, if_true] at hmem ⊢
      have hray : Nat.testBit (rayTable dir sq) (getLsbIndex (rayTable dir sq &&& occ)) = true := by
        rw [Nat.testBit_land] at hmem
        exact (Bool.and_eq_true _ _).mp hmem |>.1
      have hsub := ray_sub dir sq _ hray
      exact and_compl_or acc _ _ hacc (disj_of_sub hsub hdisj)
    · simp only [hd, decide_False, if_neg, if_false] at hmem ⊢
      have hray : Nat.testBit (rayTable dir sq) (getMsbIndex (rayTable dir sq &&& occ)) = true := by
        rw [Nat.testBit_land] at hmem
        exact (Bool.and_eq_true _ _).mp hmem |>.1
      have hsub := ray_sub dir sq _ hray
      exact and_compl_or acc _ _ hacc (disj_of_sub hsub hdisj)

theorem sub_pointwise {x ray : Nat} (hsub : x &&& ray = x) :
    ∀ t, Nat.testBit x t = true → Nat.testBit ray t = true := by
  intro t ht
  have hsym : Nat.testBit (x &&& ray) t = Nat.testBit x t :=
    congrArg (fun z => Nat.testBit z t) hsub
  rw [Nat.testBit_land, ht, Bool.true_and] at hsym
  exact hsym

theorem trunc_ray_disj (sq occ : Nat) (d d' : Direction) (p : Bool) (hne : d ≠ d') :
    truncatedRay sq occ d p &&& rayTable d' sq = 0 := by
  apply and_eq_zero_of_imp
  intro t h1 h2
  have hray := sub_pointwise (truncatedRay_sub sq occ d p) t h1
  exact and_pointwise_zero (rays_disjoint d d' hne sq) t ⟨hray, h2⟩

/-- C2: `bishop_attacks` and `rook_attacks` return, for each of the piece's
four ray directions, exactly the squares of `ray[dir][sq]` up to and including
the first occupied square: the nearest blocker is the LSB of the blockers for
the positive directions (N, NE, E, NW) and the MSB for the negative ones
(S, SW, W, SE), everything strictly beyond it is removed, the blocker itself
stays, and a blocker-free ray is included whole. -/
theorem C2_slider_attacks_per_ray (sq occ : Nat) (hsq : sq < 64) (hocc : occ < 2 ^ 64) :
    bishopAttacks sq occ = bishopAttacksSpec sq occ ∧
    rookAttacks sq occ = rookAttacksSpec sq occ := by
  have h064 : (0 : Nat) < 2 ^ 64 := by decide
  constructor
  · have hlt1 := truncatedRay_lt sq occ .NorthEast true hsq
    have hlt2 := truncatedRay_lt sq occ .NorthWest true hsq
    have hlt3 := truncatedRay_lt sq occ .SouthEast false hsq
    have e1 : bishopDirStep sq occ 0 .NorthEast = truncatedRay sq occ .NorthEast true := by
      rw [bishopDirStep_eq sq occ 0 .NorthEast hocc h064 (Nat.zero_and _)]
      simp
    have e2 : bishopDirStep sq occ (truncatedRay sq occ .NorthEast true) .NorthWest =
        truncatedRay sq occ .NorthEast true ||| truncatedRay sq occ .NorthWest true := by
      rw [bishopDirStep_eq sq occ _ .NorthWest hocc hlt1
        (trunc_ray_disj sq occ .NorthEast .NorthWest true (by simp))]
      rfl
    have e3 : bishopDirStep sq occ
        (truncatedRay sq occ .NorthEast true ||| truncatedRay sq occ .NorthWest true) .SouthEast =
        truncatedRay sq occ .NorthEast true ||| truncatedRay sq occ .NorthWest true |||
          truncatedRay sq occ .SouthEast false := by
      rw [bishopDirStep_eq sq occ _ .SouthEast hocc (Nat.or_lt_two_pow hlt1 hlt2)
        (or_disj (trunc_ray_disj sq occ .NorthEast .SouthEast true (by simp))
          (trunc_ray_disj sq occ .NorthWest .SouthEast true (by simp)))]
      rfl
    have e4 : bishopDirStep sq occ
        (truncatedRay sq occ .NorthEast true ||| truncatedRay sq occ .NorthWest true |||
          truncatedRay sq occ .SouthEast false) .SouthWest =
        truncatedRay sq occ .NorthEast true ||| truncatedRay sq occ .NorthWest true |||
          truncatedRay sq occ .SouthEast false ||| truncatedRay sq occ .SouthWest false := by
      rw [bishopDirStep_eq sq occ _ .SouthWest hocc
        (Nat.or_lt_two_pow (Nat.or_lt_two_pow hlt1 hlt2) hlt3)
        (or_disj (or_disj (trunc_ray_disj sq occ .NorthEast .SouthWest true (by simp))
          (trunc_ray_disj sq occ .NorthWest .SouthWest true (by simp)))
          (trunc_ray_disj sq occ .SouthEast .SouthWest false (by simp)))]
      rfl
    calc bishopAttacks sq occ
        = bishopDirStep sq occ (bishopDirStep sq occ
            (bishopDirStep sq occ (bishopDirStep sq occ 0 .NorthEast) .NorthWest)
            .SouthEast) .SouthWest := rfl
      _ = bishopAttacksSpec sq occ := by rw [e1, e2, e3, e4]; rfl
  · have hlt1 := truncatedRay_lt sq occ .North true hsq
    have hlt2 := truncatedRay_lt sq occ .East true hsq
    have hlt3 := truncatedRay_lt sq occ .South false hsq
    have e1 : rookDirStep sq occ 0 .North = truncatedRay sq occ .North true := by
      rw [rookDirStep_eq sq occ 0 .North hocc h064 (Nat.zero_and _)]
      simp
    have e2 : rookDirStep sq occ (truncatedRay sq occ .North true) .East =
        truncatedRay sq occ .North true ||| truncatedRay sq occ .East true := by
      rw [rookDirStep_eq sq occ _ .East hocc hlt1
        (trunc_ray_disj sq occ .North .East true (by simp))]
      rfl
    have e3 : rookDirStep sq occ
        (truncatedRay sq occ .North true ||| truncatedRay sq occ .East true) .South =
        truncatedRay sq occ .North true ||| truncatedRay sq occ .East true |||
          truncatedRay sq occ .South false := by
      rw [rookDirStep_eq sq occ _ .South hocc (Nat.or_lt_two_pow hlt1 hlt2)
        (or_disj (trunc_ray_disj sq occ .North .South true (by simp))
          (trunc_ray_disj sq occ .East .South true (by simp)))]
      rfl
    have e4 : rookDirStep sq occ
        (truncatedRay sq occ .North true ||| truncatedRay sq occ .East true |||
          truncatedRay sq occ .South false) .West =
        truncatedRay sq occ .North true ||| truncatedRay sq occ .East true |||
          truncatedRay sq occ .South false ||| truncatedRay sq occ .West false := by
      rw [rookDirStep_eq sq occ _ .West hocc
        (Nat.or_lt_two_pow (Nat.or_lt_two_pow hlt1 hlt2) hlt3)
        (or_disj (or_disj (trunc_ray_disj sq occ .North .West true (by simp))
          (trunc_ray_disj sq occ .East .West true (by simp)))
          (trunc_ray_disj sq occ .South .West false (by simp)))]
      rfl
    calc rookAttacks sq occ
        = rookDirStep sq occ (rookDirStep sq occ
            (rookDirStep sq occ (rookDirStep sq occ 0 .North) .East)
            .South) .West := rfl
      _ = rookAttacksSpec sq occ := by rw [e1, e2, e3, e4]; rfl

/-- Witness for C2: the bishop and rook on D4 (square 27) over the start
position's occupancy. -/
theorem C2_slider_attacks_per_ray_witness :
    bishopAttacks 27 (startPos.occupied) = bishopAttacksSpec 27 (startPos.occupied) ∧
    rookAttacks 27 (startPos.occupied) = rookAttacksSpec 27 (startPos.occupied) :=
  C2_slider_attacks_per_ray 27 (startPos.occupied) (by decide)
    (by decide)

theorem shouldCheckTime_tt (tmStop : Nat → Bool) (st : SearchState) :
    (shouldCheckTime tmStop st).2.tt = st.tt := by
  simp only [shouldCheckTime]
  split <;> rfl

/-- C4: at a node whose legal-move list is empty — provided the periodic time
poll does not fire and the transposition table has no entry for the position —
both `negamax` and `negamax_root` return `-MATE_SCORE + p` when the side to
move is in check and `0` (stalemate) when it is not, where `p` is the number
of moves played to reach the node (`pos.move_history_.size()`). -/
theorem C4_mate_stalemate_scores (evalF : Position → Int) (tmStop : Nat → Bool)
    (qfuel depth : Nat) (pos : Position) (alpha beta : Int) (bestMove0 : Move)
    (ply : Nat) (st : SearchState)
    (h1 : (shouldCheckTime tmStop st).1 = false)
    (h2 : ttProbe st.tt pos.hashKey ply = none)
    (h3 : generateLegalMoves pos = []) :
    (negamax evalF tmStop qfuel depth pos alpha beta ply st).1 =
      (if isInCheck pos then -MATE_SCORE + (pos.moveHistory.length : Int) else 0) ∧
    (negamaxRoot evalF tmStop qfuel depth pos alpha beta bestMove0 ply st).1 =
      (if isInCheck pos then -MATE_SCORE + (pos.moveHistory.length : Int) else 0) := by
  have htt := shouldCheckTime_tt tmStop st
  constructor
  · rw [negamax]
    rw [h1]
    simp only [Bool.false_eq_true, if_false]
    rw [show ({ (shouldCheckTime tmStop st).2 with
        nodesSearched := (shouldCheckTime tmStop st).2.nodesSearched + 1 } :
        SearchState).tt = st.tt from htt]
    rw [h2]
    rw [h3]
    simp only [if_true]
    split <;> rfl
  · rw [negamaxRoot]
    rw [h1]
    simp only [Bool.false_eq_true, if_false]
    rw [h3]
    simp only [if_true]
    split <;> rfl

/-- Witness for C4: the spec's back-rank mate `R6k/8/7K/8/8/8/8/8 b - - 0 1`
(in check, score `-MATE_SCORE + 0`) and the stalemate `k7/8/1K6/8/8/8/8/8 b`
(score `0`), searched from a fresh state. -/
theorem C4_mate_stalemate_scores_witness :
    ((negamax constEval0 tmNever 2 1 matePos (-1000000) 1000000 0
        (initialSearchState 1)).1 =
      (if isInCheck matePos then -MATE_SCORE + (matePos.moveHistory.length : Int) else 0) ∧
     (negamaxRoot constEval0 tmNever 2 1 matePos (-1000000) 1000000 defaultMove 0
        (initialSearchState 1)).1 =
      (if isInCheck matePos then -MATE_SCORE + (matePos.moveHistory.length : Int) else 0)) ∧
    ((negamax constEval0 tmNever 2 1 stalePos (-1000000) 1000000 0
        (initialSearchState 1)).1 =
      (if isInCheck stalePos then -MATE_SCORE + (stalePos.moveHistory.length : Int) else 0) ∧
     (negamaxRoot constEval0 tmNever 2 1 stalePos (-1000000) 1000000 defaultMove 0
        (initialSearchState 1)).1 =
      (if isInCheck stalePos then -MATE_SCORE + (stalePos.moveHistory.length : Int) else 0)) :=
  ⟨C4_mate_stalemate_scores constEval0 tmNever 2 1 matePos (-1000000) 1000000
      defaultMove 0 (initialSearchState 1) (by decide) rfl (by decide),
   C4_mate_stalemate_scores constEval0 tmNever 2 1 stalePos (-1000000) 1000000
      defaultMove 0 (initialSearchState 1) (by decide) rfl (by decide)⟩

theorem toInt16_eq_self (n : Int) (h1 : -(2 ^ 15) ≤ n) (h2 : n < 2 ^ 15) :
    toInt16 n = n := by
  unfold toInt16
  omega

/-- C5 (amended): a probe with the same key immediately after a store returns
exactly the stored score (mate offset undone), depth, bound type and best
move, PROVIDED the replacement policy accepts the store and both the
ply-offset score and the depth fit in `int16_t`.  The fit condition excludes
the whole mate window (`|score| > MATE_SCORE - MAX_PLY` forces a stored value
beyond 2^15), so the mate-adjustment half of the claim never round-trips;
without the side conditions the claim fails (see the counterexample). -/
theorem C5_tt_store_probe_roundtrip (tt : TranspositionTable) (key : Nat)
    (score depth : Int) (bound : Nat) (bestMove : Move) (ply : Nat)
    (haccept : (¬ ttEntryIsValid (tt.entries (key % tt.tableSize)) ||
        shouldReplace (tt.entries (key % tt.tableSize)) depth tt.currentAge) = true)
    (hdep0 : 0 ≤ depth) (hdep1 : depth < 2 ^ 15)
    (hsc0 : -(2 ^ 15) ≤ (if score > MATE_SCORE - (MAX_PLY : Int) then score + ply
        else if score < -MATE_SCORE + (MAX_PLY : Int) then score - ply else score))
    (hsc1 : (if score > MATE_SCORE - (MAX_PLY : Int) then score + ply
        else if score < -MATE_SCORE + (MAX_PLY : Int) then score - ply else score) <
        2 ^ 15) :
    ttProbe (ttStore tt key score depth bound bestMove ply) key ply =
      some (score, depth, bound, bestMove) := by
  simp only [ttStore]
  rw [haccept, if_pos rfl]
  simp only [ttProbe, if_pos rfl]
  rw [toInt16_eq_self depth (by omega) hdep1]
  rw [toInt16_eq_self _ hsc0 hsc1]
  have hval : decide (0 ≤ depth) = true := decide_eq_true hdep0
  simp only [MATE_SCORE, MAX_PLY] at hsc0 hsc1 ⊢
  push_cast at hsc0 hsc1
  simp [ttEntryIsValid, hval]
  split_ifs at * <;> push_cast at * <;> omega

/-- Witness for C5 (amended): storing score 9950 at depth 5 into a fresh
one-slot table and probing it back returns the original values. -/
theorem C5_tt_store_probe_roundtrip_witness :
    ttProbe (ttStore (emptyTT 1) 9 9950 5 1 defaultMove 3) 9 3 =
      some (9950, 5, 1, defaultMove) :=
  C5_tt_store_probe_roundtrip (emptyTT 1) 9 9950 5 1 defaultMove 3
    (by decide) (by decide) (by decide) (by decide) (by decide)

theorem makeMove_moveHistory (pos : Position) (m : Move) :
    ∃ mw, (makeMove pos m).moveHistory = mw :: pos.moveHistory := by
  simp only [makeMove, updateBitboards]
  cases m.moveType <;> split_ifs <;> exact ⟨_, rfl⟩

theorem undoMove_moveHistory_cons (pos : Position) (mw : Move) (rest : List Move)
    (h : pos.moveHistory = mw :: rest) :
    (undoMove pos).moveHistory = rest := by
  unfold undoMove
  rw [h]
  rfl

theorem undoMove_makeMove_moveHistory (pos : Position) (m : Move) :
    (undoMove (makeMove pos m)).moveHistory = pos.moveHistory := by
  obtain ⟨mw, hmw⟩ := makeMove_moveHistory pos m
  exact undoMove_moveHistory_cons (makeMove pos m) mw pos.moveHistory hmw

/-- C9 (amended): when a move scores `≥ β` in the interior move loop and is
not a capture, the killer table is updated — `killer[k][1] ← killer[k][0]`,
`killer[k][0] ← m` — at index `k = min(pos.move_count(), MAX_PLY - 1)`, the
move count of the node's position (the search's ply counter is not consulted:
the loop never receives it), and the loop breaks returning `β`. -/
theorem C9_killer_update_uses_move_count
    (childCall : Position → Int → Int → SearchState → Int × SearchState)
    (m : Move) (rest : List Move) (pos : Position) (alpha beta best : Int)
    (bestM : Move) (st : SearchState)
    (hstop : st.stopSearch = false)
    (hstop1 : (childCall (makeMove pos m) (-beta) (-alpha) st).2.stopSearch = false)
    (hbeta : -(childCall (makeMove pos m) (-beta) (-alpha) st).1 ≥ beta)
    (hcap : m.moveType ≠ .Capture) :
    negamaxLoop childCall (m :: rest) pos alpha beta best bestM st =
      (beta, m,
       { (childCall (makeMove pos m) (-beta) (-alpha) st).2 with
         killerMoves := updateKillers
           (childCall (makeMove pos m) (-beta) (-alpha) st).2.killerMoves
           (min pos.moveHistory.length (MAX_PLY - 1)) m }) := by
  rw [negamaxLoop]
  rw [hstop]
  simp only [Bool.false_eq_true, if_false]
  rw [hstop1]
  simp only [Bool.false_eq_true, if_false]
  rw [if_pos hbeta]
  rw [if_pos hcap]
  rw [undoMove_makeMove_moveHistory]

/-- Witness for C9 (amended): a cutoff on the first (quiet) move of a loop run
on the start position with two game moves already played updates the killer
slot at index 2 — the history length — as the theorem states. -/
theorem C9_killer_update_uses_move_count_witness :
    negamaxLoop (fun _ _ _ s => (-5, s))
        [mkMove 12 28 .Normal] (makeMove (makeMove startPos (mkMove 12 28 .Normal))
          (mkMove 52 36 .Normal)) 0 1 (-1000000) defaultMove
        (initialSearchState 1) =
      (1, mkMove 12 28 .Normal,
       { (initialSearchState 1) with
         killerMoves := updateKillers (initialSearchState 1).killerMoves
           (min (makeMove (makeMove startPos (mkMove 12 28 .Normal))
              (mkMove 52 36 .Normal)).moveHistory.length (MAX_PLY - 1))
           (mkMove 12 28 .Normal) }) :=
  C9_killer_update_uses_move_count (fun _ _ _ s => (-5, s))
    (mkMove 12 28 .Normal) [] (makeMove (makeMove startPos (mkMove 12 28 .Normal))
      (mkMove 52 36 .Normal)) 0 1 (-1000000) defaultMove (initialSearchState 1)
    rfl rfl (by decide) (by decide)

/-! ## Concrete counterexamples and divergence demonstrations -/

/-- C5 (counterexample): storing the mate score 99950 at ply 3 (stored value
99953) and probing it back at the same ply returns −31119, not 99950 — the
`int16_t` narrowing wraps the mate window — and a store rejected by the
replacement policy (an existing same-age entry of greater depth under another
key) leaves nothing to probe, so the claim's unconditional round-trip fails
twice over. -/
theorem C5_tt_probe_after_store_counterexample :
    ttProbe (ttStore (emptyTT 2) 5 99950 5 1 defaultMove 3) 5 3 =
      some (-31119, 5, 1, defaultMove) ∧
    ttProbe (ttStore rejectTT 5 123 3 1 defaultMove 0) 5 0 = none := by
  decide

/-- C8: `load_fen` on a FEN whose board field holds the unknown piece
character `X` returns `false` but leaves the Position mutated mid-parse —
square 7 (h1), holding a white rook (3) in the start position, is left empty
(13) — refuting the claim that a failing load leaves the Position exactly as
it was. -/
theorem C8_load_fen_failure_mutates :
    (loadFen startPos badFen).1 = false ∧
    (loadFen startPos badFen).2.board 7 = 13 ∧
    startPos.board 7 = 3 ∧
    (loadFen startPos badFen).2 ≠ startPos := by
  refine ⟨by decide, by decide, by decide, fun h => ?_⟩
  exact absurd (congrArg (fun p => p.board 7) h) (by decide)

/-- C9 (counterexample): a depth-1 search of a node at search ply 0 whose
position has one game move of history takes a beta cutoff on the quiet move
a6a7 (40 → 48) and writes it into `killer[1][0]`, leaving `killer[0]`
untouched — the index is `min(move_count, MAX_PLY−1)`, not the search's own
ply counter `p = 0` the claim names. -/
theorem C9_killer_index_counterexample :
    (negamax constEval0 tmNever 100 1 c9pos (-1000000) 0 0
        (initialSearchState 1)).2.killerMoves 0 0 = zeroMove ∧
    (negamax constEval0 tmNever 100 1 c9pos (-1000000) 0 0
        (initialSearchState 1)).2.killerMoves 0 1 = zeroMove ∧
    (negamax constEval0 tmNever 100 1 c9pos (-1000000) 0 0
        (initialSearchState 1)).2.killerMoves 1 0 = mkMove 40 48 .Normal := by
  decide

/-- C7: a `negamax` call entered with the stop flag already set returns
`-INFINITY_SCORE` (−1000000), not 0, and still performs a transposition-table
store for the abandoned node (slot 0 holds a valid depth-1 entry afterwards) —
both halves of the claimed stop-unwind behavior diverge from the code. -/
theorem C7_stop_unwind_still_stores :
    (negamax constEval0 tmNever 100 1 startPos (-1000000) 1000000 0
        { initialSearchState 1 with stopSearch := true }).1 = -1000000 ∧
    ttEntryIsValid
      ((negamax constEval0 tmNever 100 1 startPos (-1000000) 1000000 0
        { initialSearchState 1 with stopSearch := true }).2.tt.entries 0) = true ∧
    ((negamax constEval0 tmNever 100 1 startPos (-1000000) 1000000 0
        { initialSearchState 1 with stopSearch := true }).2.tt.entries 0).depth = 1 := by
  decide

/-- C6: the incremental hash update for the double push e2e4 from the start
position diverges from the from-scratch hash of the resulting position; the
difference is exactly `castlingKeys 15 ^^^ enPassantKeys 4` — the
incremental path removes the old castling/en-passant keys but never XORs the
new ones back in. -/
theorem C6_incremental_hash_diverges :
    updateHashMakeMove startPos.hashKey startPos (mkMove 12 28 .Normal) ≠
      hashPosition (makeMove startPos (mkMove 12 28 .Normal)) ∧
    updateHashMakeMove startPos.hashKey startPos (mkMove 12 28 .Normal) ^^^
        castlingKeys 15 ^^^ enPassantKeys 4 =
      hashPosition (makeMove startPos (mkMove 12 28 .Normal)) := by
  decide
